import Mathlib

/-!
# A verification development for `app/server.go`

The server reads one HTTP/1.1 request from a TCP connection, parses it by hand
and answers through a small set of path-based handlers.

Go strings are byte sequences, so a string is a list of bytes here.  The
functions of the Go standard library the server calls (`strings.Fields`,
`strings.TrimSpace`, `strings.ToLower`, `strings.Split`, `strings.SplitN`,
`strings.Contains`, `strconv.Atoi`, `bufio.Reader`) are modelled after their
documented behaviour, including UTF-8 decoding where the library decodes.
Two library tables are parameters: the Unicode lower-case mapping of
`unicode.ToLower` outside ASCII, and the output of `compress/gzip`.  So is the
number of bytes the run time can allocate when the body is read.
-/

namespace HttpServer

/-! ## Go strings -/

/-- A Go string: a sequence of bytes. -/
abbrev GoString := List Nat

/-- The constant `utf8.RuneError`, U+FFFD. -/
def RuneError : Nat := 0xFFFD

/-- The function `utf8.AppendRune`: the UTF-8 encoding of a rune; surrogates and
values above U+10FFFF are encoded as `RuneError`. -/
def encodeRune (r : Nat) : GoString :=
  if r < 0x80 then [r]
  else if r < 0x800 then [0xC0 + r / 64, 0x80 + r % 64]
  else if (0xD800 ≤ r ∧ r ≤ 0xDFFF) ∨ 0x10FFFF < r then [0xEF, 0xBF, 0xBD]
  else if r < 0x10000 then [0xE0 + r / 4096, 0x80 + r / 64 % 64, 0x80 + r % 64]
  else [0xF0 + r / 262144, 0x80 + r / 4096 % 64, 0x80 + r / 64 % 64, 0x80 + r % 64]

/-- The bytes of a string literal (its UTF-8 encoding). -/
def str (s : String) : GoString := s.toList.flatMap (fun c => encodeRune c.toNat)

/-- The tables `utf8.first` and `utf8.acceptRanges`: for a leading byte of a
multi-byte sequence, the size of the sequence and the accepted range of the
second byte; `none` for ASCII and for bytes that cannot lead. -/
def leadInfo (b : Nat) : Option (Nat × Nat × Nat) :=
  if 0xC2 ≤ b ∧ b ≤ 0xDF then some (2, 0x80, 0xBF)
  else if b = 0xE0 then some (3, 0xA0, 0xBF)
  else if 0xE1 ≤ b ∧ b ≤ 0xEC then some (3, 0x80, 0xBF)
  else if b = 0xED then some (3, 0x80, 0x9F)
  else if 0xEE ≤ b ∧ b ≤ 0xEF then some (3, 0x80, 0xBF)
  else if b = 0xF0 then some (4, 0x90, 0xBF)
  else if 0xF1 ≤ b ∧ b ≤ 0xF3 then some (4, 0x80, 0xBF)
  else if b = 0xF4 then some (4, 0x80, 0x8F)
  else none

/-- The function `utf8.DecodeRuneInString`: the first rune of `s` and its width in
bytes; an invalid or incomplete sequence decodes as `(RuneError, 1)`. -/
def DecodeRuneInString : GoString → Nat × Nat
  | [] => (RuneError, 0)
  | s0 :: rest =>
    if s0 < 0x80 then (s0, 1)
    else
      match leadInfo s0 with
      | none => (RuneError, 1)
      | some (sz, lo, hi) =>
        if rest.length + 1 < sz then (RuneError, 1)
        else
          match rest with
          | [] => (RuneError, 1)
          | s1 :: r1 =>
            if s1 < lo ∨ hi < s1 then (RuneError, 1)
            else if sz ≤ 2 then (s0 % 32 * 64 + s1 % 64, 2)
            else
              match r1 with
              | [] => (RuneError, 1)
              | s2 :: r2 =>
                if s2 < 0x80 ∨ 0xBF < s2 then (RuneError, 1)
                else if sz ≤ 3 then (s0 % 16 * 4096 + s1 % 64 * 64 + s2 % 64, 3)
                else
                  match r2 with
                  | [] => (RuneError, 1)
                  | s3 :: _ =>
                    if s3 < 0x80 ∨ 0xBF < s3 then (RuneError, 1)
                    else (s0 % 8 * 262144 + s1 % 64 * 4096 + s2 % 64 * 64 + s3 % 64, 4)

/-- The loop `for _, r := range s` over the runes of a string, as the list of the
byte chunks of its successive runes (an invalid byte is a chunk of its own).  Every
round takes at least one byte, so `fuel` bounds the rounds by the length. -/
def runeChunksAux : Nat → GoString → List GoString
  | 0, _ => []
  | _ + 1, [] => []
  | fuel + 1, s0 :: rest =>
    (s0 :: rest).take (DecodeRuneInString (s0 :: rest)).2 ::
      runeChunksAux fuel ((s0 :: rest).drop (DecodeRuneInString (s0 :: rest)).2)

/-- The runes of a string, each as its chunk of bytes. -/
def runeChunks (s : GoString) : List GoString := runeChunksAux s.length s

/-- The function `unicode.IsSpace`. -/
def IsSpace (r : Nat) : Bool :=
  r = 0x09 || r = 0x0A || r = 0x0B || r = 0x0C || r = 0x0D || r = 0x20 ||
  r = 0x85 || r = 0xA0 || r = 0x1680 || (0x2000 ≤ r && r ≤ 0x200A) ||
  r = 0x2028 || r = 0x2029 || r = 0x202F || r = 0x205F || r = 0x3000

/-- Whether a rune chunk is a white-space rune. -/
def spaceChunk (c : GoString) : Bool := IsSpace (DecodeRuneInString c).1

/-- The loop of `strings.FieldsFunc` over the runes of the string: `cur` is the
field being read (`none` between fields, Go's `start < 0`). -/
def fieldsLoop : List GoString → Option GoString → List GoString
  | [], none => []
  | [], some f => [f]
  | c :: cs, none => if spaceChunk c then fieldsLoop cs none else fieldsLoop cs (some c)
  | c :: cs, some f =>
    if spaceChunk c then f :: fieldsLoop cs none else fieldsLoop cs (some (f ++ c))

/-- The function `strings.Fields`: the maximal runs of non-white-space runes. -/
def Fields (s : GoString) : List GoString := fieldsLoop (runeChunks s) none

/-- The function `strings.TrimSpace`: the string without its leading and trailing
white-space runes. -/
def TrimSpace (s : GoString) : GoString :=
  (((runeChunks s).dropWhile spaceChunk).reverse.dropWhile spaceChunk).reverse.flatten

/-- The ASCII branch of `unicode.ToLower`. -/
def lowerASCII (b : Nat) : Nat := if 0x41 ≤ b ∧ b ≤ 0x5A then b + 32 else b

/-- The function `unicode.ToLower`: ASCII letters are handled in the code, other
runes go through the Unicode case tables `tbl`, which are a parameter. -/
def runeToLower (tbl : Nat → Nat) (r : Nat) : Nat := if r < 0x80 then lowerASCII r else tbl r

/-- The function `strings.Map`: every rune of `s` (an invalid byte counts as
`RuneError`) is replaced by the encoding of its image. -/
def Map (mapping : Nat → Nat) (s : GoString) : GoString :=
  (runeChunks s).flatMap (fun c => encodeRune (mapping (DecodeRuneInString c).1))

/-- The function `strings.ToLower`: a byte-wise pass for an ASCII string, else
`Map unicode.ToLower`. -/
def ToLower (tbl : Nat → Nat) (s : GoString) : GoString :=
  if s.all (fun b => decide (b < 0x80)) then s.map lowerASCII else Map (runeToLower tbl) s

/-- The function `strings.Cut` for a one-byte separator: the text before and after
the first occurrence of `sep`, or `none` when `sep` does not occur. -/
def cut (sep : Nat) : GoString → Option (GoString × GoString)
  | [] => none
  | b :: rest =>
    if b = sep then some ([], rest)
    else
      match cut sep rest with
      | none => none
      | some (before, after) => some (b :: before, after)

/-- The function `strings.SplitN` for a one-byte separator (the server only splits
on `"/"` and `":"`): at most `n` pieces, the last one the unsplit remainder. -/
def SplitN (s : GoString) (sep : Nat) : Nat → List GoString
  | 0 => []
  | 1 => [s]
  | n + 2 =>
    match cut sep s with
    | none => [s]
    | some (before, after) => before :: SplitN after sep (n + 1)

/-- The function `strings.Split` for a one-byte separator: all the pieces between
the occurrences of `sep`; `Split "" sep` is `[""]`. -/
def Split : GoString → Nat → List GoString
  | [], _ => [[]]
  | b :: rest, sep =>
    if b = sep then [] :: Split rest sep
    else
      match Split rest sep with
      | [] => [[b]]
      | piece :: pieces => (b :: piece) :: pieces

/-- The function `strings.Contains`: `sub` occurs in `s` as a contiguous run of bytes. -/
def Contains : GoString → GoString → Bool
  | [], sub => sub.isEmpty
  | b :: rest, sub => sub.isPrefixOf (b :: rest) || Contains rest sub

/-- The largest `uint64`. -/
def maxUint64 : Nat := 2 ^ 64 - 1

/-- The digit loop of `strconv.ParseUint` in base 10 with 64 bits: `none` is a
syntax error; on overflow the loop stops at once and yields `maxUint64`. -/
def scanUint : GoString → Nat → Option Nat
  | [], n => some n
  | c :: cs, n =>
    if 0x30 ≤ c ∧ c ≤ 0x39 then
      if n * 10 + (c - 0x30) > maxUint64 then some maxUint64 else scanUint cs (n * 10 + (c - 0x30))
    else none

/-- The function `strconv.Atoi` on a 64-bit platform: the value returned and
whether the error is non-nil.  A syntax error returns 0; a value out of range
returns the nearest `int64` together with the error. -/
def Atoi (s : GoString) : Int × Bool :=
  match s with
  | [] => (0, true)
  | c :: cs =>
    let neg : Bool := c = 0x2D
    let digits := if c = 0x2B ∨ c = 0x2D then cs else s
    if digits = [] then (0, true)
    else
      match scanUint digits 0 with
      | none => (0, true)
      | some un =>
        if neg = false ∧ 2 ^ 63 ≤ un then ((2 : Int) ^ 63 - 1, true)
        else if neg = true ∧ 2 ^ 63 < un then (-(2 : Int) ^ 63, true)
        else (if neg then -(un : Int) else (un : Int), false)

/-- The verb `%d` of `fmt`: a natural number in decimal. -/
def decimal (n : Nat) : GoString := (Nat.toDigits 10 n).map Char.toNat

/-! ## The connection and its buffered reader -/

/-- The receiving side of a connection: the segments in which the bytes arrive,
followed by the end of the stream. -/
abbrev Conn := List GoString

/-- One `Read` of the connection into a buffer of `k` bytes: `none` at the end of
the stream, otherwise the bytes delivered and the connection left.  A read of a
TCP connection delivers at least one byte, so an empty segment is skipped. -/
def connRead (k : Nat) : Conn → Option (GoString × Conn)
  | [] => none
  | [] :: rest => connRead k rest
  | (b :: seg) :: rest =>
    some ((b :: seg).take k, if (b :: seg).length ≤ k then rest else (b :: seg).drop k :: rest)

/-- The size of the buffer of `bufio.NewReader`. -/
def defaultBufSize : Nat := 4096

/-- A `bufio.Reader`: the unread bytes of its buffer and the connection behind it. -/
structure Reader where
  buf : GoString
  conn : Conn
deriving DecidableEq, Repr

/-- The reader of `bufio.NewReader(conn)`. -/
def NewReader (conn : Conn) : Reader := { buf := [], conn := conn }

/-- The bytes the reader has not handed out yet. -/
def Reader.remaining (b : Reader) : GoString := b.buf ++ b.conn.flatten

/-- The text up to and including the first occurrence of `delim`, and the text after it. -/
def cutLine (delim : Nat) : GoString → Option (GoString × GoString)
  | [] => none
  | b :: rest =>
    if b = delim then some ([b], rest)
    else
      match cutLine delim rest with
      | none => none
      | some (line, after) => some (b :: line, after)

/-- An upper bound on the number of rounds of `readStringLoop`. -/
def Reader.fuel (b : Reader) : Nat := 2 * (b.conn.flatten.length + b.conn.length) + 3

/-- The loop of `Reader.ReadString` (through `ReadSlice` and `fill`): search the
buffer for the delimiter; a full buffer without one is set aside in `acc`;
otherwise one more read of the connection fills the free part of the buffer, and
the end of the stream ends the loop with an error. -/
def readStringLoop (delim : Nat) : Nat → Reader → GoString → GoString × Bool × Reader
  | 0, b, acc => (acc ++ b.buf, true, { b with buf := [] })
  | fuel + 1, b, acc =>
    match cutLine delim b.buf with
    | some (line, after) => (acc ++ line, false, { b with buf := after })
    | none =>
      if defaultBufSize ≤ b.buf.length then
        readStringLoop delim fuel { b with buf := [] } (acc ++ b.buf)
      else
        match connRead (defaultBufSize - b.buf.length) b.conn with
        | none => (acc ++ b.buf, true, { b with buf := [], conn := [] })
        | some (got, conn) => readStringLoop delim fuel { buf := b.buf ++ got, conn := conn } acc

/-- The method `Reader.ReadString`: the bytes up to and including the first
`delim`, or all the bytes left together with an error when the stream ends first. -/
def Reader.ReadString (b : Reader) (delim : Nat) : GoString × Bool × Reader :=
  readStringLoop delim b.fuel b []

/-- The method `Reader.Read` into a slice of `n ≥ 1` bytes: the bytes read and the
reader left, or `none` for an error (the end of the stream).  Buffered bytes are
handed out first; with an empty buffer there is exactly one read of the connection. -/
def Reader.Read (b : Reader) (n : Nat) : Option (GoString × Reader) :=
  match b.buf with
  | [] =>
    if defaultBufSize ≤ n then
      match connRead n b.conn with
      | none => none
      | some (got, conn) => some (got, { buf := [], conn := conn })
    else
      match connRead defaultBufSize b.conn with
      | none => none
      | some (got, conn) => some (got.take n, { buf := got.drop n, conn := conn })
  | c :: cs => some ((c :: cs).take n, { buf := (c :: cs).drop n, conn := b.conn })

/-! ## The server -/

/-- The constant `CRLF`. -/
def CRLF : GoString := str "\r\n"

/-- The constant `HTTP11`. -/
def HTTP11 : GoString := str "HTTP/1.1"

/-- The type `Status`: the three fields of the request line. -/
structure Status where
  method : GoString
  path : GoString
  protocol : GoString
deriving DecidableEq, Repr

/-- The type `Headers`, a Go `map[string]string`: a list of entries with distinct keys. -/
abbrev Headers := List (GoString × GoString)

/-- The map lookup `m[k]` in its two-valued form `val, ok := m[k]`. -/
def Headers.get (m : Headers) (k : GoString) : Option GoString := m.lookup k

/-- The map assignment `m[k] = v`. -/
def Headers.set (m : Headers) (k v : GoString) : Headers :=
  (k, v) :: m.filter (fun e => decide (e.1 ≠ k))

/-- The type `HTTPRequest`. -/
structure HTTPRequest where
  status : Status
  headers : Headers
  body : GoString
deriving DecidableEq, Repr

/-- How a call ends, with the bytes it wrote to the connection: it returns a
value, or the process ends in `os.Exit(1)`, or a run-time panic or fatal error (an
index out of range, a slice too large to allocate) stops it. -/
inductive Outcome (α : Type) where
  | ret (out : GoString) (a : α)
  | exit (out : GoString)
  | panic (out : GoString)
deriving DecidableEq, Repr

/-- The bytes written to the connection. -/
def Outcome.out {α : Type} : Outcome α → GoString
  | .ret o _ => o
  | .exit o => o
  | .panic o => o

/-- Sequencing: the second call runs only when the first returns, and writes after it. -/
def Outcome.bind {α β : Type} (x : Outcome α) (f : α → Outcome β) : Outcome β :=
  match x with
  | .ret o a =>
    match f a with
    | .ret o2 b => .ret (o ++ o2) b
    | .exit o2 => .exit (o ++ o2)
    | .panic o2 => .panic (o ++ o2)
  | .exit o => .exit o
  | .panic o => .panic o

/-- The bytes written by `writeStatusLine`. -/
def writeStatusLine (statusCode : Nat) (statusText : GoString) : GoString :=
  HTTP11 ++ str " " ++ decimal statusCode ++ str " " ++ statusText ++ CRLF

/-- The bytes written by `writeHeader`. -/
def writeHeader (key value : GoString) : GoString := key ++ str ": " ++ value ++ CRLF

/-- The bytes written by `endHeaders`. -/
def endHeaders : GoString := CRLF

/-- The bytes written by `writeContent`; `gzip` is the output of a `gzip.Writer`
that is written the payload once and closed. -/
def writeContent (gzip : GoString → GoString) (contentType content contentEncoding : GoString) :
    GoString :=
  writeHeader (str "Content-Type") contentType ++
    if Contains contentEncoding (str "gzip") then
      let content := gzip content
      writeHeader (str "Content-Length") (decimal content.length) ++
        writeHeader (str "Content-Encoding") (str "gzip") ++ endHeaders ++ content
    else
      writeHeader (str "Content-Length") (decimal content.length) ++ endHeaders ++ content

/-- The function `createStatusObject`. -/
def createStatusObject (requestLine : GoString) : Outcome Status :=
  let fields := Fields requestLine
  if fields.length < 3 then
    .exit (writeStatusLine 400 (str "Bad Request") ++ endHeaders)
  else
    match fields[0]?, fields[1]?, fields[2]? with
    | some f0, some f1, some f2 =>
      .ret [] { method := TrimSpace f0, path := TrimSpace f1, protocol := TrimSpace f2 }
    | _, _, _ => .panic []

/-- The header loop of `createRequestObject`: `none` is the panic of
`splitHeader[1]` on a line without a colon.  Every round that goes on has read at
least one byte, which bounds the number of rounds. -/
def headerLoop (tbl : Nat → Nat) : Nat → Reader → Headers → Option (Headers × Reader)
  | 0, reader, headerPayload => some (headerPayload, reader)
  | fuel + 1, reader, headerPayload =>
    match reader.ReadString 0x0A with
    | (headerLines, err, reader) =>
      if err then some (headerPayload, reader)
      else if headerLines = str "\r\n" then some (headerPayload, reader)
      else
        let splitHeader := SplitN headerLines 0x3A 2
        match splitHeader[0]?, splitHeader[1]? with
        | some name, some value =>
          headerLoop tbl fuel reader
            (headerPayload.set (ToLower tbl (TrimSpace name)) (TrimSpace value))
        | _, _ => none

/-- The largest length `make([]byte, n)` accepts on a 64-bit platform; beyond it
the run-time panics with `makeslice: len out of range`. -/
def maxAlloc : Int := 2 ^ 48

/-- The last part of `createRequestObject`: the body is read when the header
`content-length` has a positive value, and the request is put together.  The
slice `make([]byte, contentLength)` is allocated first: `mem` is the number of bytes
the run time can allocate at that moment, and a larger length stops the process,
with the panic `makeslice: len out of range` above `maxAlloc` and with the fatal
error `out of memory` below it. -/
def readBody (mem : Nat) (statusPayload : Status) (headerPayload : Headers) (reader : Reader) :
    Outcome (HTTPRequest × Reader) :=
  match headerPayload.get (str "content-length") with
  | some val =>
    let contentLength := (Atoi val).1
    if 0 < contentLength then
      if maxAlloc < contentLength ∨ (mem : Int) < contentLength then .panic []
      else
        match reader.Read contentLength.toNat with
        | none => .exit []
        | some (data, reader) => .ret [] (⟨statusPayload, headerPayload, data⟩, reader)
    else .ret [] (⟨statusPayload, headerPayload, []⟩, reader)
  | none => .ret [] (⟨statusPayload, headerPayload, []⟩, reader)

/-- The function `createRequestObject`, which also yields the reader it leaves behind. -/
def createRequestObject (tbl : Nat → Nat) (mem : Nat) (conn : Conn) :
    Outcome (HTTPRequest × Reader) :=
  match (NewReader conn).ReadString 0x0A with
  | (requestLine, err, reader) =>
    if err then .exit (writeStatusLine 400 (str "Bad Request") ++ endHeaders)
    else
      (createStatusObject requestLine).bind fun statusPayload =>
        match headerLoop tbl (reader.remaining.length + 1) reader [] with
        | none => .panic []
        | some (headerPayload, reader) => readBody mem statusPayload headerPayload reader

/-- The files of the storage device: what `os.ReadFile` returns for a path, `none`
when the read fails. -/
abbrev FileSystem := GoString → Option GoString

/-- The function `extractFile`; `args` is `os.Args`, and `os.Args[2]` panics when
the program was started with fewer arguments. -/
def extractFile (args : List GoString) (fs : FileSystem) (fileName : GoString) :
    Outcome (Option GoString) :=
  match args[2]? with
  | none => .panic []
  | some directory => .ret [] (fs (directory ++ fileName))

/-- The function `writeFile`: `canCreate` tells for which paths `os.Create` and the
write succeed; the result is the file system left, `none` for an error. -/
def writeFile (args : List GoString) (canCreate : GoString → Bool) (fs : FileSystem)
    (fileName body : GoString) : Outcome (Option FileSystem) :=
  match args[2]? with
  | none => .panic []
  | some directory =>
    if canCreate (directory ++ fileName) then
      .ret [] (some fun p => if p = directory ++ fileName then some body else fs p)
    else .ret [] none

/-- The function `getFunc`. -/
def getFunc (gzip : GoString → GoString) (args : List GoString) (fs : FileSystem)
    (request : HTTPRequest) : Outcome Unit :=
  let encoding := (request.headers.get (str "accept-encoding")).getD []
  if request.status.path = str "/" ∨ request.status.path = str "" then
    .ret (writeStatusLine 200 (str "OK") ++ endHeaders) ()
  else
    let url := Split request.status.path 0x2F
    match url[1]? with
    | none => .panic []
    | some firstParam =>
      if firstParam = str "echo" then
        let message :=
          if 2 < url.length ∧ url.getD 2 [] ≠ str "" then url.getD 2 []
          else str "No message provided"
        .ret (writeStatusLine 200 (str "OK") ++
          writeContent gzip (str "text/plain") message encoding) ()
      else if firstParam = str "user-agent" then
        match request.headers.get firstParam with
        | some val =>
          .ret (writeStatusLine 200 (str "OK") ++
            writeContent gzip (str "text/plain") val encoding) ()
        | none => .ret [] ()
      else if firstParam = str "files" then
        if 2 < url.length then
          (extractFile args fs (url.getD 2 [])).bind fun r =>
            match r with
            | none => .exit (writeStatusLine 404 (str "Not Found") ++ endHeaders)
            | some content =>
              .ret (writeStatusLine 200 (str "OK") ++
                writeContent gzip (str "application/octet-stream") content encoding) ()
        else .ret [] ()
      else .ret (writeStatusLine 404 (str "Not Found") ++ endHeaders) ()

/-- The function `postFunc`; it returns the file system it leaves. -/
def postFunc (args : List GoString) (canCreate : GoString → Bool) (fs : FileSystem)
    (request : HTTPRequest) : Outcome FileSystem :=
  if request.status.path = str "/" ∨ request.status.path = str "" then
    .ret (writeStatusLine 404 (str "Not Found") ++ endHeaders) fs
  else
    let url := Split request.status.path 0x2F
    match url[1]? with
    | none => .panic []
    | some firstParam =>
      if firstParam = str "files" then
        if 2 < url.length then
          (writeFile args canCreate fs (url.getD 2 []) request.body).bind fun r =>
            match r with
            | none => .exit (writeStatusLine 400 (str "Bad Request") ++ endHeaders)
            | some fs2 => .ret (writeStatusLine 201 (str "Created") ++ endHeaders) fs2
        else .ret [] fs
      else .ret (writeStatusLine 404 (str "Not Found") ++ endHeaders) fs

/-- The dispatch of `handleConnection` on a request already parsed. -/
def dispatch (gzip : GoString → GoString) (args : List GoString) (canCreate : GoString → Bool)
    (fs : FileSystem) (request : HTTPRequest) : Outcome FileSystem :=
  if request.status.method = str "GET" then
    (getFunc gzip args fs request).bind fun _ => .ret [] fs
  else if request.status.method = str "POST" then
    postFunc args canCreate fs request
  else .ret (writeStatusLine 405 (str "Method Not Allowed") ++ endHeaders) fs

/-- The function `handleConnection`: all the bytes written to the connection, and
the file system left when the call returns. -/
def handleConnection (tbl : Nat → Nat) (mem : Nat) (gzip : GoString → GoString)
    (args : List GoString) (canCreate : GoString → Bool) (fs : FileSystem) (conn : Conn) :
    Outcome FileSystem :=
  (createRequestObject tbl mem conn).bind fun r => dispatch gzip args canCreate fs r.1

/-! ## The vocabulary of the statements -/

/-- A list of chunks that is the decoding of its own concatenation. -/
def Decodes (cs : List GoString) : Prop := runeChunks cs.flatten = cs

/-- A field: a non-empty string none of whose runes is white space. -/
def IsField (f : GoString) : Prop := f ≠ [] ∧ ∀ c ∈ runeChunks f, spaceChunk c = false

/-- The first line of the stream: the bytes up to and including the first line
feed, or all the bytes when the stream ends before one. -/
def firstLine (conn : Conn) : GoString :=
  match cutLine 0x0A conn.flatten with
  | some (line, _) => line
  | none => conn.flatten

/-- The text of a header line before its first colon. -/
def nameOf (line : GoString) : GoString := ((cut 0x3A line).map Prod.fst).getD line

/-- The text of a header line after its first colon. -/
def valueOf (line : GoString) : GoString := ((cut 0x3A line).map Prod.snd).getD []

/-- The key a header line is stored under: its name, trimmed and in lower case. -/
def keyOf (tbl : Nat → Nat) (line : GoString) : GoString := ToLower tbl (TrimSpace (nameOf line))

/-- A header line: one line, ended by its only line feed, with a colon in it. -/
def IsHeaderLine (line : GoString) : Prop :=
  cutLine 0x0A line = some (line, []) ∧ cut 0x3A line ≠ none

/-- The end of the header lines: the line CRLF and what follows it, or the end of the
stream, possibly after some bytes without a line feed. -/
def EndsHeaders (tail rest : GoString) : Prop :=
  tail = str "\r\n" ++ rest ∨ (cutLine 0x0A tail = none ∧ rest = [])

/-- The map the header lines stand for: a key has the trimmed value of the last
line stored under it. -/
def headersOf (tbl : Nat → Nat) (lines : List GoString) (k : GoString) : Option GoString :=
  (lines.reverse.find? fun line => decide (keyOf tbl line = k)).map fun line =>
    TrimSpace (valueOf line)

/-- Trimming byte by byte: the string without its leading and trailing white-space bytes. -/
def trimBytes (s : GoString) : GoString :=
  ((s.dropWhile IsSpace).reverse.dropWhile IsSpace).reverse

/-- The message of the echo handler: the second path segment when there is one and
it is not empty, else the literal `No message provided`. -/
def echoMessage (path : GoString) : GoString :=
  match (Split path 0x2F)[2]? with
  | some seg => if seg = [] then str "No message provided" else seg
  | none => str "No message provided"

/-- The bytes written begin with a status line: the constant `HTTP/1.1`, one of
the codes the server uses, a reason and CRLF. -/
def StatusLed (out : GoString) : Prop :=
  ∃ code ∈ [200, 201, 400, 404, 405], ∃ text rest : GoString,
    out = str "HTTP/1.1 " ++ decimal code ++ str " " ++ text ++ str "\r\n" ++ rest

/-! ## Lemmas on the decoding of runes -/

theorem decode_width_pos (s0 : Nat) (rest : GoString) :
    1 ≤ (DecodeRuneInString (s0 :: rest)).2 := by
  simp only [DecodeRuneInString]
  repeat' split
  all_goals simp

theorem decode_width_le (s : GoString) :
    (DecodeRuneInString s).2 ≤ s.length := by
  cases s with
  | nil => simp [DecodeRuneInString]
  | cons s0 rest =>
    simp only [DecodeRuneInString]
    repeat' split
    all_goals simp

theorem leadInfo_size (b sz lo hi : Nat) (h : leadInfo b = some (sz, lo, hi)) :
    sz = 2 ∨ sz = 3 ∨ sz = 4 := by
  unfold leadInfo at h
  split_ifs at h <;> simp at h <;> omega

theorem runeChunksAux_fuel (n : Nat) : ∀ (m : Nat) (s : GoString), s.length ≤ n → s.length ≤ m →
    runeChunksAux n s = runeChunksAux m s := by
  induction n with
  | zero => intro m s h _; cases s <;> cases m <;> simp_all [runeChunksAux]
  | succ n ih =>
    intro m s h hm
    cases s with
    | nil => cases m <;> rfl
    | cons s0 rest =>
      have hw := decode_width_pos s0 rest
      cases m with
      | zero => simp at hm
      | succ m =>
        simp only [runeChunksAux, List.length_cons] at h hm ⊢
        congr 1
        apply ih
        all_goals simp only [List.length_drop, List.length_cons]
        all_goals omega

theorem runeChunks_nil : runeChunks [] = [] := rfl

theorem runeChunks_cons (s0 : Nat) (rest : GoString) :
    runeChunks (s0 :: rest) =
      (s0 :: rest).take (DecodeRuneInString (s0 :: rest)).2 ::
        runeChunks ((s0 :: rest).drop (DecodeRuneInString (s0 :: rest)).2) := by
  have hw := decode_width_pos s0 rest
  simp only [runeChunks, List.length_cons, runeChunksAux]
  congr 1
  apply runeChunksAux_fuel
  all_goals simp only [List.length_drop, List.length_cons]
  all_goals omega

theorem decode_single (s0 : Nat) : (DecodeRuneInString [s0]).2 = 1 := by
  simp only [DecodeRuneInString]
  repeat' split
  all_goals simp_all

theorem decode_width_stable (s0 : Nat) (t u : GoString)
    (hw : (DecodeRuneInString (s0 :: (t ++ u))).2 ≤ t.length + 1) :
    (DecodeRuneInString (s0 :: t)).2 = (DecodeRuneInString (s0 :: (t ++ u))).2 := by
  have hpos := decode_width_pos s0 (t ++ u)
  rcases t with _ | ⟨a, _ | ⟨b, _ | ⟨c, t⟩⟩⟩
  · have := decode_single s0
    simp at *
    omega
  · rcases u with _ | ⟨x, u⟩
    · simp
    · revert hw
      simp only [DecodeRuneInString, List.cons_append, List.nil_append, List.length_cons, List.length_nil]
      repeat' split
      all_goals simp_all
      all_goals omega
  · rcases u with _ | ⟨x, u⟩
    · simp
    · revert hw
      simp only [DecodeRuneInString, List.cons_append, List.nil_append, List.length_cons, List.length_nil]
      repeat' split
      all_goals simp_all
      all_goals omega
  · simp only [DecodeRuneInString, List.cons_append, List.nil_append, List.length_cons, List.length_nil]
    repeat' split
    all_goals simp_all
    all_goals first | omega | (have hsz := leadInfo_size _ _ _ _ ‹_›; omega)

theorem runeChunks_flatten_aux (n : Nat) : ∀ s : GoString, s.length ≤ n →
    (runeChunks s).flatten = s := by
  induction n with
  | zero => intro s h; cases s <;> simp_all [runeChunks_nil]
  | succ n ih =>
    intro s h
    cases s with
    | nil => rfl
    | cons s0 rest =>
      have hw := decode_width_pos s0 rest
      rw [runeChunks_cons, List.flatten_cons, ih, List.take_append_drop]
      simp only [List.length_drop, List.length_cons] at h ⊢
      omega

theorem runeChunks_flatten (s : GoString) : (runeChunks s).flatten = s :=
  runeChunks_flatten_aux s.length s (le_refl _)

theorem decodes_runeChunks (s : GoString) : Decodes (runeChunks s) := by
  unfold Decodes
  rw [runeChunks_flatten]

theorem decodes_cons_inv (c : GoString) (cs : List GoString) (h : Decodes (c :: cs)) :
    c ≠ [] ∧ Decodes cs ∧ c.length = (DecodeRuneInString (c ++ cs.flatten)).2 := by
  unfold Decodes at h
  rw [List.flatten_cons] at h
  rcases hs : c ++ cs.flatten with _ | ⟨s0, rest⟩
  · rw [hs] at h; simp [runeChunks_nil] at h
  · rw [hs, runeChunks_cons] at h
    have hw := decode_width_pos s0 rest
    have hle := decode_width_le (s0 :: rest)
    injection h with h1 h2
    have hlen : c.length = (DecodeRuneInString (s0 :: rest)).2 := by
      have := congrArg List.length h1
      simp only [List.length_take, List.length_cons] at this hle
      omega
    refine ⟨?_, ?_, hlen⟩
    · intro hc
      rw [hc] at hlen
      simp only [List.length_nil] at hlen
      omega
    · unfold Decodes
      have h3 : (s0 :: rest).drop (DecodeRuneInString (s0 :: rest)).2 = cs.flatten := by
        have := List.take_append_drop (DecodeRuneInString (s0 :: rest)).2 (s0 :: rest)
        rw [h1] at this
        exact List.append_cancel_left (this.trans hs.symm)
      rw [← h3]; exact h2

theorem decodes_append_right (a b : List GoString) (h : Decodes (a ++ b)) : Decodes b := by
  induction a with
  | nil => exact h
  | cons c a ih => exact ih (decodes_cons_inv c (a ++ b) h).2.1

theorem decodes_append_left (a b : List GoString) (h : Decodes (a ++ b)) : Decodes a := by
  induction a with
  | nil => exact runeChunks_nil
  | cons c a ih =>
    obtain ⟨hc, hd, hlen⟩ := decodes_cons_inv c (a ++ b) h
    have iha := ih hd
    unfold Decodes at iha ⊢
    rcases c with _ | ⟨c0, c⟩
    · exact absurd rfl hc
    · have heq : (c0 :: c) ++ (a ++ b).flatten = c0 :: (c ++ a.flatten ++ b.flatten) := by
        simp
      rw [heq] at hlen
      have hst := decode_width_stable c0 (c ++ a.flatten) b.flatten (by
        rw [← hlen]
        simp only [List.length_cons, List.length_append]
        omega)
      rw [← hlen] at hst
      rw [List.flatten_cons, List.cons_append, runeChunks_cons, hst, ← List.cons_append]
      simp only [List.take_left', List.drop_left', iha]

theorem decodes_mem_ne_nil (cs : List GoString) (h : Decodes cs) : ∀ c ∈ cs, c ≠ [] := by
  induction cs with
  | nil => simp
  | cons c cs ih =>
    obtain ⟨hc, hd, _⟩ := decodes_cons_inv c cs h
    intro x hx
    rcases List.mem_cons.mp hx with rfl | hx
    · exact hc
    · exact ih hd x hx

theorem dropWhile_none {α : Type} (p : α → Bool) (l : List α) (h : ∀ x ∈ l, p x = false) :
    l.dropWhile p = l := by
  cases l with
  | nil => rfl
  | cons a l => simp [List.dropWhile, h a (List.mem_cons_self a l)]

theorem TrimSpace_of_no_space (f : GoString) (h : ∀ c ∈ runeChunks f, spaceChunk c = false) :
    TrimSpace f = f := by
  unfold TrimSpace
  rw [dropWhile_none _ _ h, dropWhile_none, List.reverse_reverse, runeChunks_flatten]
  intro x hx
  exact h x (List.mem_reverse.mp hx)

theorem isField_of_segment (seg : List GoString) (hne : seg ≠ []) (hd : Decodes seg)
    (hs : ∀ c ∈ seg, spaceChunk c = false) : IsField seg.flatten := by
  refine ⟨?_, ?_⟩
  · rcases seg with _ | ⟨c, seg⟩
    · exact absurd rfl hne
    · have := decodes_mem_ne_nil _ hd c (List.mem_cons_self c seg)
      intro h
      rw [List.flatten_cons, List.append_eq_nil] at h
      exact this h.1
  · rw [hd]; exact hs

theorem fieldsLoop_isField : ∀ (cs : List GoString) (cur : Option GoString),
    (match cur with
      | none => Decodes cs
      | some f => ∃ seg, seg ≠ [] ∧ seg.flatten = f ∧ (∀ c ∈ seg, spaceChunk c = false) ∧
          Decodes (seg ++ cs)) →
    ∀ f ∈ fieldsLoop cs cur, IsField f := by
  intro cs
  induction cs with
  | nil =>
    intro cur h f hf
    cases cur with
    | none => simp [fieldsLoop] at hf
    | some g =>
      obtain ⟨seg, hne, hfl, hs, hd⟩ := h
      simp only [fieldsLoop, List.mem_singleton] at hf
      subst hf; subst hfl
      exact isField_of_segment seg hne (decodes_append_left seg [] hd) hs
  | cons c cs ih =>
    intro cur h f hf
    cases cur with
    | none =>
      simp only [fieldsLoop] at hf
      have hd : Decodes (c :: cs) := h
      split_ifs at hf with hsp
      · exact ih none (decodes_cons_inv c cs hd).2.1 f hf
      · refine ih (some c) ⟨[c], by simp, by simp, ?_, hd⟩ f hf
        intro x hx
        rw [List.mem_singleton] at hx
        subst hx
        simpa using hsp
    | some g =>
      obtain ⟨seg, hne, hfl, hs, hd⟩ := h
      simp only [fieldsLoop] at hf
      split_ifs at hf with hsp
      · rcases List.mem_cons.mp hf with rfl | hf
        · subst hfl
          exact isField_of_segment seg hne (decodes_append_left seg _ hd) hs
        · exact ih none (decodes_cons_inv c cs (decodes_append_right seg _ hd)).2.1 f hf
      · refine ih (some (g ++ c)) ⟨seg ++ [c], by simp, by simp [hfl], ?_, by simpa using hd⟩ f hf
        intro x hx
        rcases List.mem_append.mp hx with hx | hx
        · exact hs x hx
        · rw [List.mem_singleton] at hx
          subst hx
          simpa using hsp

theorem Fields_isField (s : GoString) : ∀ f ∈ Fields s, IsField f :=
  fieldsLoop_isField (runeChunks s) none (decodes_runeChunks s)

theorem decode_ascii (b : Nat) (rest : GoString) (h : b < 0x80) :
    DecodeRuneInString (b :: rest) = (b, 1) := by
  simp [DecodeRuneInString, h]

theorem leadInfo_range (b sz lo hi : Nat) (h : leadInfo b = some (sz, lo, hi)) :
    0x80 ≤ lo ∧ hi ≤ 0xBF := by
  unfold leadInfo at h
  split_ifs at h <;> simp at h <;> omega

theorem chunk_ascii (s0 : Nat) (rest : GoString) (b : Nat) (hb : b < 0x80)
    (hmem : b ∈ (s0 :: rest).take (DecodeRuneInString (s0 :: rest)).2) :
    (s0 :: rest).take (DecodeRuneInString (s0 :: rest)).2 = [b] := by
  revert hmem
  simp only [DecodeRuneInString]
  repeat' split
  all_goals simp_all
  all_goals first | omega | (have hrg := leadInfo_range _ _ _ _ ‹_›; omega)

theorem ascii_mem_runeChunks_aux (n : Nat) : ∀ s : GoString, s.length ≤ n →
    ∀ b ∈ s, b < 0x80 → [b] ∈ runeChunks s := by
  induction n with
  | zero => intro s h b hb; cases s <;> simp_all
  | succ n ih =>
    intro s h b hb hlt
    cases s with
    | nil => simp at hb
    | cons s0 rest =>
      have hw := decode_width_pos s0 rest
      rw [runeChunks_cons]
      rw [← List.take_append_drop (DecodeRuneInString (s0 :: rest)).2 (s0 :: rest)] at hb
      rcases List.mem_append.mp hb with hb | hb
      · rw [chunk_ascii s0 rest b hlt hb]
        exact List.mem_cons_self _ _
      · refine List.mem_cons_of_mem _ (ih _ ?_ b hb hlt)
        simp only [List.length_drop, List.length_cons] at h ⊢
        omega

theorem isField_no_space_byte (f : GoString) (h : IsField f) :
    ∀ b ∈ f, b < 0x80 → IsSpace b = false := by
  intro b hb hlt
  have := h.2 [b] (ascii_mem_runeChunks_aux f.length f (le_refl _) b hb hlt)
  simpa [spaceChunk, decode_ascii b [] hlt] using this

/-! ## The request line -/

/-- C1: when the request line has at least three white-space separated fields,
`createStatusObject` returns the first three as method, path and protocol (the
other fields are ignored) and writes nothing; each of the three is non-empty, has
no white-space rune, and has no ASCII white-space byte. -/
theorem createStatusObject_three_fields (requestLine f0 f1 f2 : GoString)
    (more : List GoString) (h : Fields requestLine = f0 :: f1 :: f2 :: more) :
    createStatusObject requestLine =
        Outcome.ret [] { method := f0, path := f1, protocol := f2 } ∧
      ∀ f ∈ [f0, f1, f2], f ≠ [] ∧ (∀ c ∈ runeChunks f, spaceChunk c = false) ∧
        ∀ b ∈ f, b ∉ [0x09, 0x0A, 0x0B, 0x0C, 0x0D, 0x20] := by
  have hf : ∀ f ∈ [f0, f1, f2], IsField f := by
    intro f hf
    apply Fields_isField requestLine
    rw [h]
    simp only [List.mem_cons, List.mem_singleton, List.not_mem_nil, or_false] at hf ⊢
    rcases hf with rfl | rfl | rfl <;> simp
  refine ⟨?_, ?_⟩
  · have h0 := hf f0 (by simp)
    have h1 := hf f1 (by simp)
    have h2 := hf f2 (by simp)
    simp [createStatusObject, h, TrimSpace_of_no_space _ h0.2, TrimSpace_of_no_space _ h1.2,
      TrimSpace_of_no_space _ h2.2]
  · intro f hmem
    refine ⟨(hf f hmem).1, (hf f hmem).2, ?_⟩
    intro b hb hsp
    have hlt : b < 0x80 := by
      simp only [List.mem_cons, List.mem_singleton, List.not_mem_nil, or_false] at hsp
      omega
    have := isField_no_space_byte f (hf f hmem) b hb hlt
    simp only [List.mem_cons, List.mem_singleton, List.not_mem_nil, or_false] at hsp
    rcases hsp with rfl | rfl | rfl | rfl | rfl | rfl <;> simp [IsSpace] at this

/-- The request line `GET /echo/hello HTTP/1.1 extra` followed by CRLF: three fields
and one more. -/
theorem createStatusObject_three_fields_witness :
    createStatusObject (str "GET /echo/hello HTTP/1.1 extra\r\n") =
        Outcome.ret []
          { method := str "GET", path := str "/echo/hello", protocol := str "HTTP/1.1" } ∧
      ∀ f ∈ [str "GET", str "/echo/hello", str "HTTP/1.1"],
        f ≠ [] ∧ (∀ c ∈ runeChunks f, spaceChunk c = false) ∧
          ∀ b ∈ f, b ∉ [0x09, 0x0A, 0x0B, 0x0C, 0x0D, 0x20] :=
  createStatusObject_three_fields (str "GET /echo/hello HTTP/1.1 extra\r\n") (str "GET")
    (str "/echo/hello") (str "HTTP/1.1") [str "extra"] (by decide)

/-! ## Lemmas on the buffered reader -/

theorem cutLine_append_some (d : Nat) (a b line rest : GoString)
    (h : cutLine d a = some (line, rest)) : cutLine d (a ++ b) = some (line, rest ++ b) := by
  induction a generalizing line rest with
  | nil => simp [cutLine] at h
  | cons x a ih =>
    rw [List.cons_append, cutLine]
    rw [cutLine] at h
    split_ifs at h ⊢ with hx
    · simp only [Option.some.injEq, Prod.mk.injEq] at h ⊢
      exact ⟨h.1, by rw [h.2]⟩
    · cases hc : cutLine d a with
      | none => simp [hc] at h
      | some p =>
        obtain ⟨l, r⟩ := p
        simp only [hc, Option.some.injEq, Prod.mk.injEq] at h
        simp [ih l r hc, h.1, ← h.2]

theorem cutLine_append_none (d : Nat) (a b : GoString) (h : cutLine d a = none) :
    cutLine d (a ++ b) = (cutLine d b).map (fun p => (a ++ p.1, p.2)) := by
  induction a with
  | nil => simp
  | cons x a ih =>
    rw [List.cons_append, cutLine]
    rw [cutLine] at h
    split_ifs at h ⊢ with hx
    cases hc : cutLine d a with
    | none =>
      rw [ih hc]
      cases cutLine d b <;> simp
    | some p => simp [hc] at h

theorem cutLine_eq (d : Nat) (s line rest : GoString) (h : cutLine d s = some (line, rest)) :
    s = line ++ rest := by
  induction s generalizing line rest with
  | nil => simp [cutLine] at h
  | cons x s ih =>
    simp only [cutLine] at h
    split_ifs at h with hx
    · simp only [Option.some.injEq, Prod.mk.injEq] at h
      simp [← h.1, ← h.2]
    · cases hc : cutLine d s with
      | none => simp [hc] at h
      | some p =>
        obtain ⟨l, r⟩ := p
        simp only [hc, Option.some.injEq, Prod.mk.injEq] at h
        rw [← h.1, ← h.2, List.cons_append, ← ih l r hc]

theorem connRead_some (k : Nat) (hk : 1 ≤ k) (conn conn2 : Conn) (got : GoString)
    (h : connRead k conn = some (got, conn2)) :
    conn.flatten = got ++ conn2.flatten ∧ got ≠ [] ∧ got.length ≤ k ∧
      conn2.flatten.length + conn2.length < conn.flatten.length + conn.length := by
  induction conn with
  | nil => simp [connRead] at h
  | cons seg conn ih =>
    cases seg with
    | nil =>
      simp only [connRead] at h
      obtain ⟨h1, h2, h3, h4⟩ := ih h
      refine ⟨by simpa using h1, h2, h3, ?_⟩
      simp only [List.flatten_cons, List.nil_append, List.length_cons]
      omega
    | cons b seg =>
      simp only [connRead, Option.some.injEq, Prod.mk.injEq] at h
      obtain ⟨h1, h2⟩ := h
      subst h1 h2
      refine ⟨?_, ?_, ?_, ?_⟩
      · split_ifs with hl
        · rw [List.take_of_length_le hl]; simp
        · simp only [List.flatten_cons]
          rw [← List.append_assoc, List.take_append_drop]
      · cases k with
        | zero => omega
        | succ k => simp
      · simp only [List.length_take]; omega
      · split_ifs with hl
        · simp only [List.flatten_cons, List.length_append, List.length_cons]; omega
        · simp only [List.flatten_cons, List.length_append, List.length_cons, List.length_drop]
          omega

theorem connRead_none (k : Nat) (conn : Conn) (h : connRead k conn = none) :
    conn.flatten = [] := by
  induction conn with
  | nil => rfl
  | cons seg conn ih =>
    cases seg with
    | nil => simpa [connRead] using ih (by simpa [connRead] using h)
    | cons b seg => simp [connRead] at h
theorem readStringLoop_spec (d : Nat) : ∀ (fuel : Nat) (b : Reader) (acc : GoString),
    2 * (b.conn.flatten.length + b.conn.length) +
        (if defaultBufSize ≤ b.buf.length then 1 else 0) + 1 ≤ fuel →
    (∀ line rest, cutLine d b.remaining = some (line, rest) →
        ∃ r, readStringLoop d fuel b acc = (acc ++ line, false, r) ∧ r.remaining = rest) ∧
      (cutLine d b.remaining = none →
        ∃ r, readStringLoop d fuel b acc = (acc ++ b.remaining, true, r) ∧ r.remaining = []) := by
  intro fuel
  induction fuel with
  | zero => intro b acc h; omega
  | succ fuel ih =>
    intro b acc hfuel
    rw [readStringLoop]
    cases hbuf : cutLine d b.buf with
    | some p =>
      obtain ⟨l, after⟩ := p
      have hrem := cutLine_append_some d b.buf b.conn.flatten l after hbuf
      simp only [Reader.remaining]
      rw [hrem]
      refine ⟨?_, by simp⟩
      intro line rest h
      simp only [Option.some.injEq, Prod.mk.injEq] at h
      exact ⟨_, by rw [h.1], by simp [Reader.remaining, h.2]⟩
    | none =>
      have hrem := cutLine_append_none d b.buf b.conn.flatten hbuf
      simp only
      split_ifs with hfull
      · have hsz : ¬ defaultBufSize ≤ ([] : GoString).length := by decide
        obtain ⟨ih1, ih2⟩ := ih { b with buf := [] } (acc ++ b.buf) (by
          simp only [hsz, if_false]
          simp only [hfull, if_true] at hfuel
          omega)
        simp only [Reader.remaining, List.nil_append] at ih1 ih2 ⊢
        rw [hrem]
        refine ⟨?_, ?_⟩
        · intro line rest h
          cases hc : cutLine d b.conn.flatten with
          | none => simp [hc] at h
          | some p =>
            obtain ⟨l, r⟩ := p
            simp only [hc, Option.map_some', Option.some.injEq, Prod.mk.injEq] at h
            obtain ⟨r2, h1, h2⟩ := ih1 l r hc
            exact ⟨r2, by rw [h1, ← h.1, List.append_assoc], by rw [h2, h.2]⟩
        · intro h
          cases hc : cutLine d b.conn.flatten with
          | some p => simp [hc] at h
          | none =>
            obtain ⟨r2, h1, h2⟩ := ih2 hc
            exact ⟨r2, by rw [h1, List.append_assoc], h2⟩
      · cases hread : connRead (defaultBufSize - b.buf.length) b.conn with
        | none =>
          have hflat := connRead_none _ _ hread
          simp only [Reader.remaining, hflat, List.append_nil, hbuf]
          refine ⟨by simp, ?_⟩
          intro _
          exact ⟨_, rfl, by simp⟩
        | some p =>
          obtain ⟨got, conn2⟩ := p
          obtain ⟨h1, _, h3, h4⟩ := connRead_some _ (by omega) _ _ _ hread
          simp only
          have hsame : ({ buf := b.buf ++ got, conn := conn2 } : Reader).remaining = b.remaining := by
            simp [Reader.remaining, h1]
          have := ih { buf := b.buf ++ got, conn := conn2 } acc (by
            simp only [hfull, if_false] at hfuel
            show 2 * (conn2.flatten.length + conn2.length) +
              (if defaultBufSize ≤ (b.buf ++ got).length then 1 else 0) + 1 ≤ fuel
            split_ifs <;> omega)
          rw [hsame] at this
          exact this

theorem ReadString_line (b : Reader) (d : Nat) (line rest : GoString)
    (h : cutLine d b.remaining = some (line, rest)) :
    ∃ r, b.ReadString d = (line, false, r) ∧ r.remaining = rest := by
  have := (readStringLoop_spec d b.fuel b [] (by unfold Reader.fuel; split_ifs <;> omega)).1 line rest h
  simpa [Reader.ReadString] using this

theorem ReadString_eof (b : Reader) (d : Nat) (h : cutLine d b.remaining = none) :
    ∃ r, b.ReadString d = (b.remaining, true, r) ∧ r.remaining = [] := by
  have := (readStringLoop_spec d b.fuel b [] (by unfold Reader.fuel; split_ifs <;> omega)).2 h
  simpa [Reader.ReadString] using this

theorem badRequest_bytes :
    writeStatusLine 400 (str "Bad Request") ++ endHeaders = str "HTTP/1.1 400 Bad Request\r\n\r\n" := by
  decide

theorem NewReader_remaining (conn : Conn) : (NewReader conn).remaining = conn.flatten := by
  simp [NewReader, Reader.remaining]

/-- C2: when the first line of the stream has fewer than three white-space
separated fields (an empty or all-white-space line included), the bytes written are
exactly the 400 response, and both `createRequestObject` and `handleConnection` end
in `os.Exit(1)` there: no request value is returned and nothing is dispatched. -/
theorem handleConnection_malformed_request_line (tbl : Nat → Nat) (mem : Nat)
    (gzip : GoString → GoString) (args : List GoString)
    (canCreate : GoString → Bool) (fs : FileSystem) (conn : Conn)
    (h : (Fields (firstLine conn)).length < 3) :
    createRequestObject tbl mem conn = Outcome.exit (str "HTTP/1.1 400 Bad Request\r\n\r\n") ∧
      handleConnection tbl mem gzip args canCreate fs conn =
        Outcome.exit (str "HTTP/1.1 400 Bad Request\r\n\r\n") := by
  have key : createRequestObject tbl mem conn =
      Outcome.exit (str "HTTP/1.1 400 Bad Request\r\n\r\n") := by
    unfold firstLine at h
    unfold createRequestObject
    cases hc : cutLine 0x0A conn.flatten with
    | some p =>
      obtain ⟨line, rest⟩ := p
      rw [hc] at h
      obtain ⟨r, hr, _⟩ := ReadString_line (NewReader conn) 0x0A line rest
        (by rw [NewReader_remaining]; exact hc)
      rw [hr]
      simp only [Bool.false_eq_true, if_false]
      have : createStatusObject line = Outcome.exit (str "HTTP/1.1 400 Bad Request\r\n\r\n") := by
        simp only [createStatusObject] at h ⊢
        rw [if_pos h, badRequest_bytes]
      rw [this]
      rfl
    | none =>
      obtain ⟨r, hr, _⟩ := ReadString_eof (NewReader conn) 0x0A
        (by rw [NewReader_remaining]; exact hc)
      rw [hr]
      simp only [if_true, badRequest_bytes]
  refine ⟨key, ?_⟩
  unfold handleConnection
  rw [key]
  rfl

/-- The stream `GET /` followed by CRLF and a blank line, in one segment: two fields. -/
theorem handleConnection_malformed_request_line_witness :
    createRequestObject id (2 ^ 20) [str "GET /\r\n\r\n"] =
        Outcome.exit (str "HTTP/1.1 400 Bad Request\r\n\r\n") ∧
      handleConnection id (2 ^ 20) id [] (fun _ => true) (fun _ => none) [str "GET /\r\n\r\n"] =
        Outcome.exit (str "HTTP/1.1 400 Bad Request\r\n\r\n") :=
  handleConnection_malformed_request_line id (2 ^ 20) id [] (fun _ => true) (fun _ => none)
    [str "GET /\r\n\r\n"] (by decide)

/-! ## The header lines -/

theorem lookup_filter_ne (m : Headers) (k k2 : GoString) (hk : k2 ≠ k) :
    List.lookup k2 (m.filter fun e => decide (e.1 ≠ k)) = List.lookup k2 m := by
  induction m with
  | nil => rfl
  | cons e m ih =>
    obtain ⟨ek, ev⟩ := e
    by_cases he : ek = k
    · have h2 : (k2 == ek) = false := by rw [he]; simpa using hk
      rw [List.filter_cons_of_neg (by simp [he]), List.lookup_cons, h2, ih]
    · rw [List.filter_cons_of_pos (by simp [he]), List.lookup_cons, List.lookup_cons, ih]

theorem Headers.get_set (m : Headers) (k v k2 : GoString) :
    (m.set k v).get k2 = if k2 = k then some v else m.get k2 := by
  unfold Headers.get Headers.set
  rw [List.lookup_cons]
  by_cases hk : k2 = k
  · simp [hk]
  · have hne : (k2 == k) = false := by simpa using hk
    rw [hne, if_neg hk]
    exact lookup_filter_ne m k k2 hk

theorem SplitN_two (line before after : GoString) (h : cut 0x3A line = some (before, after)) :
    SplitN line 0x3A 2 = [before, after] := by
  simp [SplitN, h]

theorem headerLoop_lines (tbl : Nat → Nat) (tail rest : GoString) (ht : EndsHeaders tail rest) :
    ∀ (lines : List GoString) (fuel : Nat) (reader : Reader) (m : Headers),
      (∀ l ∈ lines, IsHeaderLine l) → reader.remaining = lines.flatten ++ tail →
      reader.remaining.length + 1 ≤ fuel →
      ∃ hs rd, headerLoop tbl fuel reader m = some (hs, rd) ∧ rd.remaining = rest ∧
        ∀ k, hs.get k = ((headersOf tbl lines k).or (m.get k)) := by
  intro lines
  induction lines with
  | nil =>
    intro fuel reader m _ hrem hfuel
    cases fuel with
    | zero => omega
    | succ fuel =>
      simp only [List.flatten_nil, List.nil_append] at hrem
      rw [headerLoop]
      rcases ht with ht | ⟨ht, hrest⟩
      · have hc : cutLine 0x0A reader.remaining = some (str "\r\n", rest) := by
          rw [hrem, ht]
          exact cutLine_append_some 0x0A (str "\r\n") rest (str "\r\n") [] (by decide)
        obtain ⟨r, hr, hr2⟩ := ReadString_line reader 0x0A _ _ hc
        rw [hr]
        exact ⟨m, r, by simp, hr2, by simp [headersOf]⟩
      · obtain ⟨r, hr, hr2⟩ := ReadString_eof reader 0x0A (by rw [hrem]; exact ht)
        rw [hr]
        exact ⟨m, r, by simp, by rw [hr2, hrest], by simp [headersOf]⟩
  | cons l lines ih =>
    intro fuel reader m hl hrem hfuel
    obtain ⟨hline, hcolon⟩ := hl l (List.mem_cons_self _ _)
    have hne : l ≠ [] := by
      intro h; rw [h] at hline; simp [cutLine] at hline
    cases fuel with
    | zero => omega
    | succ fuel =>
      rw [headerLoop]
      have hc : cutLine 0x0A reader.remaining = some (l, lines.flatten ++ tail) := by
        rw [hrem, List.flatten_cons, List.append_assoc]
        simpa using cutLine_append_some 0x0A l (lines.flatten ++ tail) l [] hline
      obtain ⟨r, hr, hr2⟩ := ReadString_line reader 0x0A _ _ hc
      rw [hr]
      have hcrlf : l ≠ str "\r\n" := by
        intro h; rw [h] at hcolon; exact hcolon (by decide)
      cases hcut : cut 0x3A l with
      | none => exact absurd hcut hcolon
      | some p =>
        obtain ⟨before, after⟩ := p
        simp only [Bool.false_eq_true, if_false, hcrlf, SplitN_two l before after hcut]
        have hlen : r.remaining.length + 1 ≤ fuel := by
          have : reader.remaining.length = l.length + r.remaining.length := by
            rw [hrem, hr2]; simp
          have : 0 < l.length := List.length_pos.mpr hne
          omega
        obtain ⟨hs, rd, h1, h2, h3⟩ := ih fuel r
          (m.set (ToLower tbl (TrimSpace before)) (TrimSpace after))
          (fun x hx => hl x (List.mem_cons_of_mem _ hx)) hr2 hlen
        refine ⟨hs, rd, by simpa using h1, h2, ?_⟩
        intro k
        rw [h3 k, Headers.get_set]
        simp only [headersOf, List.reverse_cons, List.find?_append]
        cases hfind : List.find? (fun line => decide (keyOf tbl line = k)) lines.reverse with
        | some x => simp
        | none =>
          simp only [Option.map_none', Option.none_or, Option.none_or, List.find?_cons,
            List.find?_nil, keyOf, nameOf, valueOf, hcut, Option.map_some', Option.getD_some]
          by_cases hk : k = ToLower tbl (TrimSpace before)
          · simp [hk, hcut]
          · have : ¬ ToLower tbl (TrimSpace before) = k := fun h => hk h.symm
            simp [hk, this]

theorem runeChunks_ascii (s : GoString) (h : ∀ b ∈ s, b < 0x80) :
    runeChunks s = s.map fun b => [b] := by
  induction s with
  | nil => rfl
  | cons b s ih =>
    rw [runeChunks_cons, decode_ascii b s (h b (List.mem_cons_self _ _))]
    simp only [List.take_succ_cons, List.take_zero, List.drop_succ_cons, List.drop_zero,
      List.map_cons]
    rw [ih fun x hx => h x (List.mem_cons_of_mem _ hx)]

theorem dropWhile_chunks_ascii (s : GoString) (h : ∀ b ∈ s, b < 0x80) :
    (s.map fun b => [b]).dropWhile spaceChunk = (s.dropWhile IsSpace).map fun b => [b] := by
  induction s with
  | nil => rfl
  | cons b s ih =>
    have hb : spaceChunk [b] = IsSpace b := by
      simp [spaceChunk, decode_ascii b [] (h b (List.mem_cons_self _ _))]
    simp only [List.map_cons, List.dropWhile_cons, hb]
    split
    · exact ih fun x hx => h x (List.mem_cons_of_mem _ hx)
    · rfl

theorem flatten_singletons (l : GoString) : (l.map fun b => [b]).flatten = l := by
  induction l with
  | nil => rfl
  | cons b l ih => simp [ih]

theorem TrimSpace_ascii (s : GoString) (h : ∀ b ∈ s, b < 0x80) : TrimSpace s = trimBytes s := by
  have h1 : ∀ b ∈ (s.dropWhile IsSpace).reverse, b < 0x80 := fun b hb =>
    h b ((List.dropWhile_suffix IsSpace).subset (List.mem_reverse.mp hb))
  unfold TrimSpace trimBytes
  rw [runeChunks_ascii s h, dropWhile_chunks_ascii s h, ← List.map_reverse,
    dropWhile_chunks_ascii _ h1, ← List.map_reverse]
  exact flatten_singletons _

theorem trimBytes_ascii (s : GoString) (h : ∀ b ∈ s, b < 0x80) : ∀ b ∈ trimBytes s, b < 0x80 := by
  intro b hb
  unfold trimBytes at hb
  have h1 := (List.dropWhile_suffix IsSpace).subset (List.mem_reverse.mp hb)
  exact h b ((List.dropWhile_suffix IsSpace).subset (List.mem_reverse.mp h1))

theorem IsSpace_lowerASCII : IsSpace ∘ lowerASCII = IsSpace := by
  funext b
  simp only [Function.comp, lowerASCII]
  split_ifs with hb
  · have h1 : IsSpace b = false := by
      simp [IsSpace]; omega
    have h2 : IsSpace (b + 32) = false := by
      simp [IsSpace]; omega
    rw [h1, h2]
  · rfl

theorem trimBytes_map_lower (s : GoString) :
    (trimBytes s).map lowerASCII = trimBytes (s.map lowerASCII) := by
  have step : ∀ l : GoString, (l.dropWhile IsSpace).map lowerASCII =
      (l.map lowerASCII).dropWhile IsSpace := by
    intro l
    rw [List.dropWhile_map, IsSpace_lowerASCII]
  unfold trimBytes
  rw [List.map_reverse, step, List.map_reverse, step]

theorem ToLower_ascii (tbl : Nat → Nat) (s : GoString) (h : ∀ b ∈ s, b < 0x80) :
    ToLower tbl s = s.map lowerASCII := by
  unfold ToLower
  rw [if_pos]
  simpa using h

theorem key_case_insensitive (tbl : Nat → Nat) (n1 n2 : GoString)
    (h1 : ∀ b ∈ n1, b < 0x80) (h2 : ∀ b ∈ n2, b < 0x80)
    (h : n1.map lowerASCII = n2.map lowerASCII) :
    ToLower tbl (TrimSpace n1) = ToLower tbl (TrimSpace n2) := by
  rw [TrimSpace_ascii n1 h1, TrimSpace_ascii n2 h2, ToLower_ascii tbl _ (trimBytes_ascii n1 h1),
    ToLower_ascii tbl _ (trimBytes_ascii n2 h2), trimBytes_map_lower, trimBytes_map_lower, h]

theorem readBody_ret (mem : Nat) (statusPayload : Status) (headerPayload : Headers)
    (reader rd : Reader)
    (out : GoString) (req : HTTPRequest)
    (h : readBody mem statusPayload headerPayload reader = Outcome.ret out (req, rd)) :
    out = [] ∧ req.status = statusPayload ∧ req.headers = headerPayload := by
  unfold readBody at h
  split at h
  · simp only at h
    split_ifs at h
    split at h
    · cases h
    · simp only [Outcome.ret.injEq, Prod.mk.injEq] at h
      obtain ⟨h1, h2, _⟩ := h
      subst h2
      exact ⟨h1.symm, rfl, rfl⟩
    · simp only [Outcome.ret.injEq, Prod.mk.injEq] at h
      obtain ⟨h1, h2, _⟩ := h
      subst h2
      exact ⟨h1.symm, rfl, rfl⟩
  · simp only [Outcome.ret.injEq, Prod.mk.injEq] at h
    obtain ⟨h1, h2, _⟩ := h
    subst h2
    exact ⟨h1.symm, rfl, rfl⟩

theorem createRequestObject_eq (tbl : Nat → Nat) (mem : Nat) (conn : Conn)
    (requestLine after : GoString)
    (statusPayload : Status)
    (hline : cutLine 0x0A conn.flatten = some (requestLine, after))
    (hstatus : createStatusObject requestLine = Outcome.ret [] statusPayload) :
    ∃ reader, reader.remaining = after ∧
      createRequestObject tbl mem conn =
        match headerLoop tbl (after.length + 1) reader [] with
        | none => Outcome.panic []
        | some (headerPayload, reader) => readBody mem statusPayload headerPayload reader := by
  obtain ⟨r, hr, hr2⟩ := ReadString_line (NewReader conn) 0x0A requestLine after
    (by rw [NewReader_remaining]; exact hline)
  refine ⟨r, hr2, ?_⟩
  unfold createRequestObject
  rw [hr]
  simp only [Bool.false_eq_true, if_false, hstatus, Outcome.bind, hr2]
  cases headerLoop tbl (after.length + 1) r [] with
  | none => rfl
  | some p =>
    obtain ⟨hs, rd⟩ := p
    simp only
    cases readBody mem statusPayload hs rd <;> simp

/-- C3: when the request line is followed by header lines that each have a colon,
and these are ended by the line CRLF or by the end of the stream, the header loop
of `createRequestObject` builds a map `headerPayload` in which a key is present
exactly when it is the lower-cased trimmed name of one of the lines, and is mapped
to the trimmed text after the first colon of the last such line; this map goes to
the last part of the function and into the request it returns.  Names made of ASCII
bytes that differ only in letter case give the same key. -/
theorem createRequestObject_headers (tbl : Nat → Nat) (mem : Nat) (conn : Conn)
    (requestLine : GoString) (lines : List GoString) (tail rest : GoString)
    (statusPayload : Status)
    (hconn : conn.flatten = requestLine ++ (lines.flatten ++ tail))
    (hreq : cutLine 0x0A requestLine = some (requestLine, []))
    (hstatus : createStatusObject requestLine = Outcome.ret [] statusPayload)
    (hlines : ∀ l ∈ lines, IsHeaderLine l) (htail : EndsHeaders tail rest) :
    ∃ headerPayload reader,
      createRequestObject tbl mem conn = readBody mem statusPayload headerPayload reader ∧
      reader.remaining = rest ∧
      (∀ req rd, createRequestObject tbl mem conn = Outcome.ret [] (req, rd) →
        req.headers = headerPayload) ∧
      (∀ k, headerPayload.get k =
        (lines.reverse.find? fun l => decide (ToLower tbl (TrimSpace (nameOf l)) = k)).map
          fun l => TrimSpace (valueOf l)) ∧
      (∀ k, headerPayload.get k ≠ none ↔
        ∃ l ∈ lines, ToLower tbl (TrimSpace (nameOf l)) = k) ∧
      (∀ n1 n2 : GoString, (∀ b ∈ n1, b < 0x80) → (∀ b ∈ n2, b < 0x80) →
        n1.map lowerASCII = n2.map lowerASCII →
        ToLower tbl (TrimSpace n1) = ToLower tbl (TrimSpace n2)) := by
  have hline : cutLine 0x0A conn.flatten = some (requestLine, lines.flatten ++ tail) := by
    rw [hconn]
    simpa using cutLine_append_some 0x0A requestLine (lines.flatten ++ tail) requestLine [] hreq
  obtain ⟨r, hr, hcreate⟩ := createRequestObject_eq tbl mem conn requestLine _ statusPayload hline hstatus
  obtain ⟨hs, rd, h1, h2, h3⟩ := headerLoop_lines tbl tail rest htail lines
    ((lines.flatten ++ tail).length + 1) r [] hlines hr (by rw [hr])
  rw [h1] at hcreate
  simp only at hcreate
  have hget : ∀ k, hs.get k =
      (lines.reverse.find? fun l => decide (ToLower tbl (TrimSpace (nameOf l)) = k)).map
        fun l => TrimSpace (valueOf l) := by
    intro k
    rw [h3 k]
    simp [headersOf, keyOf, Headers.get]
  refine ⟨hs, rd, hcreate, h2, ?_, hget, ?_, key_case_insensitive tbl⟩
  · intro req rd2 h
    rw [hcreate] at h
    exact (readBody_ret _ _ _ _ _ _ _ h).2.2
  · intro k
    rw [hget k]
    cases hf : List.find? (fun l => decide (ToLower tbl (TrimSpace (nameOf l)) = k))
        lines.reverse with
    | none =>
      simp only [Option.map_none', ne_eq, not_true_eq_false, false_iff, not_exists, not_and]
      intro l hl
      have := List.find?_eq_none.mp hf l (List.mem_reverse.mpr hl)
      simpa using this
    | some x =>
      simp only [Option.map_some', ne_eq, not_false_eq_true, true_iff, reduceCtorEq]
      have hx := List.find?_some hf
      have hm := List.mem_of_find?_eq_some hf
      exact ⟨x, List.mem_reverse.mp hm, by simpa using hx⟩

/-- A request with the header `Host` twice, in different letter case, and a body. -/
theorem createRequestObject_headers_witness :
    ∃ headerPayload reader,
      createRequestObject id (2 ^ 20)
          [str "GET / HTTP/1.1\r\nHost: localhost:4221\r\nHOST : b\r\n\r\nxyz"] =
        readBody (2 ^ 20) { method := str "GET", path := str "/", protocol := str "HTTP/1.1" }
          headerPayload reader ∧
      reader.remaining = str "xyz" ∧
      (∀ req rd, createRequestObject id (2 ^ 20)
          [str "GET / HTTP/1.1\r\nHost: localhost:4221\r\nHOST : b\r\n\r\nxyz"] =
            Outcome.ret [] (req, rd) → req.headers = headerPayload) ∧
      (∀ k, headerPayload.get k =
        ([str "Host: localhost:4221\r\n", str "HOST : b\r\n"].reverse.find?
            fun l => decide (ToLower id (TrimSpace (nameOf l)) = k)).map
          fun l => TrimSpace (valueOf l)) ∧
      (∀ k, headerPayload.get k ≠ none ↔
        ∃ l ∈ [str "Host: localhost:4221\r\n", str "HOST : b\r\n"],
          ToLower id (TrimSpace (nameOf l)) = k) ∧
      (∀ n1 n2 : GoString, (∀ b ∈ n1, b < 0x80) → (∀ b ∈ n2, b < 0x80) →
        n1.map lowerASCII = n2.map lowerASCII →
        ToLower id (TrimSpace n1) = ToLower id (TrimSpace n2)) :=
  createRequestObject_headers id (2 ^ 20)
    [str "GET / HTTP/1.1\r\nHost: localhost:4221\r\nHOST : b\r\n\r\nxyz"]
    (str "GET / HTTP/1.1\r\n") [str "Host: localhost:4221\r\n", str "HOST : b\r\n"]
    (str "\r\nxyz") (str "xyz")
    { method := str "GET", path := str "/", protocol := str "HTTP/1.1" }
    (by decide) (by decide) (by decide)
    (by
      intro l hl
      simp only [List.mem_cons, List.mem_singleton, List.not_mem_nil, or_false] at hl
      rcases hl with rfl | rfl <;> exact ⟨by decide, by decide⟩)
    (Or.inl (by decide))

/-- The request `GET /` with the headers `Host: localhost:4221` and `HOST : b`: the
value keeps its later colon, and the second line replaces the first under `host`. -/
theorem createRequestObject_host_example :
    createRequestObject id (2 ^ 20) [str "GET / HTTP/1.1\r\nHost: localhost:4221\r\n\r\n"] =
        Outcome.ret [] (⟨⟨str "GET", str "/", str "HTTP/1.1"⟩,
          [(str "host", str "localhost:4221")], []⟩, ⟨[], []⟩) ∧
      createRequestObject id (2 ^ 20)
          [str "GET / HTTP/1.1\r\nHost: localhost:4221\r\nHOST : b\r\n\r\n"] =
        Outcome.ret [] (⟨⟨str "GET", str "/", str "HTTP/1.1"⟩,
          [(str "host", str "b")], []⟩, ⟨[], []⟩) := by
  decide

/-! ## The body -/

theorem Read_buffered (b : Reader) (n : Nat) (h : b.buf ≠ []) :
    b.Read n = some (b.buf.take n, { buf := b.buf.drop n, conn := b.conn }) := by
  unfold Reader.Read
  cases hb : b.buf with
  | nil => exact absurd hb h
  | cons c cs => rfl

/-- With a positive `content-length` of `n` and a reader whose buffer holds some
bytes, the body is the first `n` bytes of the buffer, or the whole buffer when it
holds fewer: the bytes still on the connection are not waited for. -/
theorem readBody_buffered (mem : Nat) (statusPayload : Status) (headerPayload : Headers)
    (reader : Reader) (val : GoString) (n : Nat)
    (hval : headerPayload.get (str "content-length") = some val)
    (hn : (Atoi val).1 = (n : Int)) (hpos : 0 < n) (hmax : (n : Int) ≤ maxAlloc)
    (hmem : n ≤ mem) (hbuf : reader.buf ≠ []) :
    readBody mem statusPayload headerPayload reader =
      Outcome.ret [] (⟨statusPayload, headerPayload, reader.buf.take n⟩,
        { buf := reader.buf.drop n, conn := reader.conn }) := by
  unfold readBody
  rw [hval]
  simp only [hn]
  rw [if_pos (by exact_mod_cast hpos), if_neg (by omega), Int.toNat_ofNat,
    Read_buffered reader n hbuf]

/-- C4, the failing input: the request says `Content-Length: 5` and the stream holds
the five bytes `abcde` after the blank line, of which `cde` arrive in a second
segment; the body of the request returned is `ab`, and `cde` is left unread. -/
theorem createRequestObject_body_short_read :
    createRequestObject id (2 ^ 20)
        [str "POST /files/a HTTP/1.1\r\nContent-Length: 5\r\n\r\nab", str "cde"] =
      Outcome.ret [] (⟨⟨str "POST", str "/files/a", str "HTTP/1.1"⟩,
        [(str "content-length", str "5")], str "ab"⟩, ⟨[], [str "cde"]⟩) := by
  decide

/-- The same request arriving in one segment: the body is `abcde`. -/
theorem createRequestObject_body_one_segment :
    createRequestObject id (2 ^ 20)
        [str "POST /files/a HTTP/1.1\r\nContent-Length: 5\r\n\r\nabcde"] =
      Outcome.ret [] (⟨⟨str "POST", str "/files/a", str "HTTP/1.1"⟩,
        [(str "content-length", str "5")], str "abcde"⟩, ⟨[], []⟩) := by
  decide

/-! ## The response writer -/

theorem Contains_iff (s sub : GoString) :
    Contains s sub = true ↔ ∃ a b, s = a ++ sub ++ b := by
  induction s with
  | nil =>
    simp only [Contains, List.isEmpty_iff]
    constructor
    · intro h; exact ⟨[], [], by simp [h]⟩
    · rintro ⟨a, b, h⟩
      have := congrArg List.length h
      simp only [List.length_nil, List.length_append] at this
      exact List.length_eq_zero.mp (by omega)
  | cons x s ih =>
    simp only [Contains, Bool.or_eq_true, List.isPrefixOf_iff_prefix, ih]
    constructor
    · rintro (⟨t, ht⟩ | ⟨a, b, h⟩)
      · exact ⟨[], t, by simp [ht]⟩
      · exact ⟨x :: a, b, by simp [h]⟩
    · rintro ⟨a, b, h⟩
      cases a with
      | nil => exact Or.inl ⟨b, by simpa using h.symm⟩
      | cons y a =>
        simp only [List.cons_append, List.cons.injEq] at h
        exact Or.inr ⟨a, b, h.2⟩

theorem writeContent_plain (gzip : GoString → GoString) (ct p e : GoString)
    (h : Contains e (str "gzip") = false) :
    writeContent gzip ct p e =
      str "Content-Type: " ++ ct ++ str "\r\nContent-Length: " ++ decimal p.length ++
        str "\r\n\r\n" ++ p := by
  unfold writeContent
  rw [h]
  simp only [Bool.false_eq_true, if_false, writeHeader, endHeaders, List.append_assoc]
  rfl

theorem writeContent_gzipped (gzip : GoString → GoString) (ct p e : GoString)
    (h : Contains e (str "gzip") = true) :
    writeContent gzip ct p e =
      str "Content-Type: " ++ ct ++ str "\r\nContent-Length: " ++ decimal (gzip p).length ++
        str "\r\nContent-Encoding: gzip\r\n\r\n" ++ gzip p := by
  unfold writeContent
  rw [h]
  simp only [if_true, writeHeader, endHeaders, List.append_assoc]
  rfl

/-- C6: `writeContent` takes the gzip mode exactly when the accept-encoding value
has `gzip` somewhere in it as a run of bytes (the match is case-sensitive); it then
writes Content-Type, Content-Length and Content-Encoding in this order, a blank
line and the compressed payload, the length being that of the compressed bytes.
Without `gzip` in the value it writes the plain form. -/
theorem writeContent_gzip_mode (gzip : GoString → GoString) (ct p e : GoString) :
    ((∃ a b, e = a ++ str "gzip" ++ b) →
      writeContent gzip ct p e =
        str "Content-Type: " ++ ct ++ str "\r\nContent-Length: " ++
          decimal (gzip p).length ++ str "\r\nContent-Encoding: gzip\r\n\r\n" ++ gzip p) ∧
    ((¬ ∃ a b, e = a ++ str "gzip" ++ b) →
      writeContent gzip ct p e =
        str "Content-Type: " ++ ct ++ str "\r\nContent-Length: " ++ decimal p.length ++
          str "\r\n\r\n" ++ p) ∧
    (∃ a b, str "deflate, gzip;q=1" = a ++ str "gzip" ++ b) ∧
    (¬ ∃ a b, str "GZIP, Gzip" = a ++ str "gzip" ++ b) := by
  refine ⟨?_, ?_, ?_, ?_⟩
  · intro h
    exact writeContent_gzipped gzip ct p e ((Contains_iff e _).mpr h)
  · intro h
    apply writeContent_plain
    cases hc : Contains e (str "gzip") with
    | false => rfl
    | true => exact absurd ((Contains_iff e _).mp hc) h
  · exact (Contains_iff _ _).mp (by decide)
  · intro h
    have := (Contains_iff _ _).mpr h
    revert this
    decide

/-- C7: when the accept-encoding value has no `gzip` in it (the empty value of
an absent header included), `writeContent` writes Content-Type, then Content-Length
with the number of bytes of the payload in decimal, a blank line and the payload
unchanged, and no Content-Encoding header. -/
theorem writeContent_plain_mode (gzip : GoString → GoString) (ct p e : GoString)
    (h : ¬ ∃ a b, e = a ++ str "gzip" ++ b) :
    writeContent gzip ct p e =
      str "Content-Type: " ++ ct ++ str "\r\nContent-Length: " ++ decimal p.length ++
        str "\r\n\r\n" ++ p := by
  apply writeContent_plain
  cases hc : Contains e (str "gzip") with
  | false => rfl
  | true => exact absurd ((Contains_iff e _).mp hc) h

/-- The payload `é`, one character of two bytes, with the header absent: the
length written is 2. -/
theorem writeContent_plain_mode_witness :
    writeContent id (str "text/plain") (str "é") [] =
      str "Content-Type: text/plain\r\nContent-Length: 2\r\n\r\né" :=
  (writeContent_plain_mode id (str "text/plain") (str "é") [] (by
    intro h
    have := (Contains_iff _ _).mpr h
    revert this
    decide)).trans (by decide)
/-! ## The dispatch -/

theorem createRequestObject_ret_out (tbl : Nat → Nat) (mem : Nat) (conn : Conn)
    (out : GoString)
    (req : HTTPRequest) (rd : Reader)
    (h : createRequestObject tbl mem conn = Outcome.ret out (req, rd)) : out = [] := by
  unfold createRequestObject at h
  rcases hr : (NewReader conn).ReadString 0x0A with ⟨line, err, reader⟩
  rw [hr] at h
  simp only at h
  split_ifs at h
  have hst : ∀ o st, createStatusObject line = Outcome.ret o st → o = [] := by
    intro o st hs
    unfold createStatusObject at hs
    simp only at hs
    split_ifs at hs
    split at hs
    · simp only [Outcome.ret.injEq] at hs; exact hs.1.symm
    · cases hs
  cases hs : createStatusObject line with
  | exit o => rw [hs] at h; cases h
  | panic o => rw [hs] at h; cases h
  | ret o st =>
    have ho := hst o st hs
    subst ho
    rw [hs] at h
    simp only [Outcome.bind] at h
    cases hl : headerLoop tbl (reader.remaining.length + 1) reader [] with
    | none => rw [hl] at h; cases h
    | some p =>
      obtain ⟨hp, r2⟩ := p
      rw [hl] at h
      simp only at h
      cases hb : readBody mem st hp r2 with
      | exit o => rw [hb] at h; cases h
      | panic o => rw [hb] at h; cases h
      | ret o2 a =>
        obtain ⟨a1, a2⟩ := a
        rw [hb] at h
        simp only [List.nil_append, Outcome.ret.injEq] at h
        rw [← h.1]
        exact (readBody_ret _ _ _ _ _ _ _ hb).1

theorem index_two (l : List GoString) (d : GoString) :
    (if 2 < l.length ∧ l.getD 2 [] ≠ str "" then l.getD 2 [] else d) =
      match l[2]? with
      | some seg => if seg = [] then d else seg
      | none => d := by
  rw [List.getD_eq_getElem?_getD]
  cases h : l[2]? with
  | none =>
    have := List.getElem?_eq_none_iff.mp h
    rw [if_neg (by omega)]
  | some seg =>
    have : 2 < l.length := by
      by_contra hc
      rw [List.getElem?_eq_none (by omega)] at h
      cases h
    have hs : str "" = [] := rfl
    simp only [Option.getD_some, this, true_and, hs]
    split_ifs <;> simp_all

theorem not_root_of_index_one (path seg : GoString) (hne : seg ≠ [])
    (h : (Split path 0x2F)[1]? = some seg) : ¬ (path = str "/" ∨ path = str "") := by
  rintro (hp | hp)
  · rw [hp] at h
    have : (Split (str "/") 0x2F)[1]? = some [] := by decide
    rw [this] at h
    exact hne (Option.some.inj h).symm
  · rw [hp] at h
    have : (Split (str "") 0x2F)[1]? = none := by decide
    rw [this] at h
    cases h

theorem dispatch_get (gzip : GoString → GoString) (args : List GoString)
    (canCreate : GoString → Bool) (fs : FileSystem) (request : HTTPRequest) (out : GoString)
    (hm : request.status.method = str "GET")
    (h : getFunc gzip args fs request = Outcome.ret out ()) :
    dispatch gzip args canCreate fs request = Outcome.ret out fs := by
  unfold dispatch
  rw [if_pos hm, h]
  simp [Outcome.bind]

theorem ok_bytes : writeStatusLine 200 (str "OK") = str "HTTP/1.1 200 OK\r\n" := by decide

/-- C5: for a GET request whose first path segment is `echo` and whose
accept-encoding value has no `gzip` in it, the response is the status line
`HTTP/1.1 200 OK`, `Content-Type: text/plain`, `Content-Length` with the number of
bytes of the message, a blank line and the message; the message is the second path
segment as it stands (no URL-decoding) when there is one and it is not empty, and
`No message provided` otherwise, as for the paths `/echo` and `/echo/`. -/
theorem dispatch_echo (gzip : GoString → GoString) (args : List GoString)
    (canCreate : GoString → Bool) (fs : FileSystem) (request : HTTPRequest)
    (hm : request.status.method = str "GET")
    (hseg : (Split request.status.path 0x2F)[1]? = some (str "echo"))
    (henc : ¬ ∃ a b, (request.headers.get (str "accept-encoding")).getD [] =
      a ++ str "gzip" ++ b) :
    dispatch gzip args canCreate fs request =
        Outcome.ret (str "HTTP/1.1 200 OK\r\nContent-Type: text/plain\r\nContent-Length: " ++
          decimal (echoMessage request.status.path).length ++ str "\r\n\r\n" ++
          echoMessage request.status.path) fs ∧
      echoMessage (str "/echo/hello") = str "hello" ∧
      echoMessage (str "/echo/a%20b/c") = str "a%20b" ∧
      echoMessage (str "/echo") = str "No message provided" ∧
      echoMessage (str "/echo/") = str "No message provided" := by
  refine ⟨?_, by decide, by decide, by decide, by decide⟩
  apply dispatch_get _ _ _ _ _ _ hm
  have hroot := not_root_of_index_one _ _ (by decide) hseg
  have hc : Contains ((request.headers.get (str "accept-encoding")).getD []) (str "gzip") =
      false := by
    cases hc : Contains ((request.headers.get (str "accept-encoding")).getD []) (str "gzip") with
    | false => rfl
    | true => exact absurd ((Contains_iff _ _).mp hc) henc
  unfold getFunc
  simp only [if_neg hroot, hseg, if_true]
  rw [index_two, ok_bytes, writeContent_plain _ _ _ _ hc]
  simp only [echoMessage, List.append_assoc]
  rfl

/-- The request `GET /echo/hello` without headers: the body is `hello` and the
length written is 5. -/
theorem dispatch_echo_witness :
    dispatch id [] (fun _ => true) (fun _ => none)
        ⟨⟨str "GET", str "/echo/hello", str "HTTP/1.1"⟩, [], []⟩ =
      Outcome.ret
        (str "HTTP/1.1 200 OK\r\nContent-Type: text/plain\r\nContent-Length: 5\r\n\r\nhello")
        (fun _ => none) :=
  ((dispatch_echo id [] (fun _ => true) (fun _ => none)
    ⟨⟨str "GET", str "/echo/hello", str "HTTP/1.1"⟩, [], []⟩ (by decide) (by decide) (by
      intro h
      have := (Contains_iff _ _).mpr h
      revert this
      decide)).1).trans (congrArg (fun o => Outcome.ret o fun _ => none) (by decide))

/-- C8: when the request parsed from the connection has a method that is neither
exactly `GET` nor exactly `POST`, whatever its path, headers and body,
`handleConnection` writes exactly the 405 status line and a blank line, and returns. -/
theorem handleConnection_method_not_allowed (tbl : Nat → Nat) (mem : Nat)
    (gzip : GoString → GoString) (args : List GoString)
    (canCreate : GoString → Bool) (fs : FileSystem) (conn : Conn)
    (out : GoString) (request : HTTPRequest) (reader : Reader)
    (hparse : createRequestObject tbl mem conn = Outcome.ret out (request, reader))
    (hget : request.status.method ≠ str "GET") (hpost : request.status.method ≠ str "POST") :
    handleConnection tbl mem gzip args canCreate fs conn =
      Outcome.ret (str "HTTP/1.1 405 Method Not Allowed\r\n\r\n") fs := by
  have ho := createRequestObject_ret_out tbl mem conn out request reader hparse
  subst ho
  unfold handleConnection
  rw [hparse]
  simp only [Outcome.bind, dispatch, if_neg hget, if_neg hpost, List.nil_append]
  exact congrArg (fun o => Outcome.ret o fs) (by decide)

/-- The request `get /echo/hello` with a header and a body: the method is not `GET`. -/
theorem handleConnection_method_not_allowed_witness :
    handleConnection id (2 ^ 20) id [] (fun _ => true) (fun _ => none)
        [str "get /echo/hello HTTP/1.1\r\nContent-Length: 2\r\n\r\nhi"] =
      Outcome.ret (str "HTTP/1.1 405 Method Not Allowed\r\n\r\n") (fun _ => none) :=
  handleConnection_method_not_allowed id (2 ^ 20) id [] (fun _ => true) (fun _ => none)
    [str "get /echo/hello HTTP/1.1\r\nContent-Length: 2\r\n\r\nhi"] []
    ⟨⟨str "get", str "/echo/hello", str "HTTP/1.1"⟩, [(str "content-length", str "2")], str "hi"⟩
    ⟨[], []⟩ (by decide) (by decide) (by decide)

theorem notFound_bytes :
    writeStatusLine 404 (str "Not Found") ++ endHeaders = str "HTTP/1.1 404 Not Found\r\n\r\n" := by
  decide

theorem okEnd_bytes :
    writeStatusLine 200 (str "OK") ++ endHeaders = str "HTTP/1.1 200 OK\r\n\r\n" := by
  decide

theorem Split_slash (rest : GoString) :
    ∃ pieces, Split rest 0x2F ≠ [] ∧ Split (0x2F :: rest) 0x2F = [] :: Split rest 0x2F ∧
      Split rest 0x2F = pieces := by
  refine ⟨_, ?_, by simp [Split], rfl⟩
  cases rest with
  | nil => simp [Split]
  | cons b rest =>
    rw [Split]
    split_ifs
    · simp
    · split <;> simp

/-- C9: for a GET request whose path begins with a slash and is not the root, the
first path segment exists, and when it is none of `echo`, `user-agent`, `files`
the response is exactly the 404 status line and a blank line, whatever the headers;
for the root path the response is exactly the 200 status line and a blank line. -/
theorem dispatch_not_found (gzip : GoString → GoString) (args : List GoString)
    (canCreate : GoString → Bool) (fs : FileSystem) (request : HTTPRequest)
    (hm : request.status.method = str "GET") :
    (∀ rest, request.status.path = 0x2F :: rest → rest ≠ [] →
      ∃ seg, (Split request.status.path 0x2F)[1]? = some seg ∧
        (seg ≠ str "echo" → seg ≠ str "user-agent" → seg ≠ str "files" →
          dispatch gzip args canCreate fs request =
            Outcome.ret (str "HTTP/1.1 404 Not Found\r\n\r\n") fs)) ∧
    (request.status.path = str "/" →
      dispatch gzip args canCreate fs request = Outcome.ret (str "HTTP/1.1 200 OK\r\n\r\n") fs) := by
  refine ⟨?_, ?_⟩
  · intro rest hpath hrest
    obtain ⟨pieces, hne, hsplit, _⟩ := Split_slash rest
    rw [hpath, hsplit]
    cases hs : Split rest 0x2F with
    | nil => exact absurd hs hne
    | cons seg more =>
      refine ⟨seg, by simp, ?_⟩
      intro h1 h2 h3
      apply dispatch_get _ _ _ _ _ _ hm
      have hroot : ¬ (0x2F :: rest = str "/" ∨ 0x2F :: rest = str "") := by
        rintro (h | h)
        · exact hrest (List.cons.inj h).2
        · cases h
      unfold getFunc
      simp only [hpath, if_neg hroot, hsplit, hs, List.getElem?_cons_succ, List.getElem?_cons_zero,
        if_neg h1, if_neg h2, if_neg h3, notFound_bytes]
  · intro hpath
    apply dispatch_get _ _ _ _ _ _ hm
    unfold getFunc
    simp only [hpath, true_or, if_true, okEnd_bytes]

/-- The paths `/nonexistent`, `/Echo/x` and `/echox` with the header
`Accept-Encoding: gzip`, and the root path. -/
theorem dispatch_not_found_witness :
    (∀ p ∈ [str "/nonexistent", str "/Echo/x", str "/echox"],
      dispatch id [] (fun _ => true) (fun _ => none)
          ⟨⟨str "GET", p, str "HTTP/1.1"⟩, [(str "accept-encoding", str "gzip")], []⟩ =
        Outcome.ret (str "HTTP/1.1 404 Not Found\r\n\r\n") (fun _ => none)) ∧
      dispatch id [] (fun _ => true) (fun _ => none)
          ⟨⟨str "GET", str "/", str "HTTP/1.1"⟩, [(str "accept-encoding", str "gzip")], []⟩ =
        Outcome.ret (str "HTTP/1.1 200 OK\r\n\r\n") (fun _ => none) := by
  refine ⟨?_, (dispatch_not_found id [] (fun _ => true) (fun _ => none)
    ⟨⟨str "GET", str "/", str "HTTP/1.1"⟩, [(str "accept-encoding", str "gzip")], []⟩
    (by decide)).2 (by decide)⟩
  intro p hp
  have key : ∀ rest seg, p = 0x2F :: rest → rest ≠ [] →
      (Split p 0x2F)[1]? = some seg → seg ≠ str "echo" → seg ≠ str "user-agent" →
      seg ≠ str "files" →
      dispatch id [] (fun _ => true) (fun _ => none)
          ⟨⟨str "GET", p, str "HTTP/1.1"⟩, [(str "accept-encoding", str "gzip")], []⟩ =
        Outcome.ret (str "HTTP/1.1 404 Not Found\r\n\r\n") (fun _ => none) := by
    intro rest seg h1 h2 h3 h4 h5 h6
    obtain ⟨seg2, hs, hd⟩ := (dispatch_not_found id [] (fun _ => true) (fun _ => none)
      ⟨⟨str "GET", p, str "HTTP/1.1"⟩, [(str "accept-encoding", str "gzip")], []⟩
      rfl).1 rest h1 h2
    have : seg2 = seg := Option.some.inj (hs.symm.trans h3)
    subst this
    exact hd h4 h5 h6
  simp only [List.mem_cons, List.mem_singleton, List.not_mem_nil, or_false] at hp
  rcases hp with rfl | rfl | rfl
  · exact key (str "nonexistent") (str "nonexistent") (by decide) (by decide) (by decide)
      (by decide) (by decide) (by decide)
  · exact key (str "Echo/x") (str "Echo") (by decide) (by decide) (by decide)
      (by decide) (by decide) (by decide)
  · exact key (str "echox") (str "echox") (by decide) (by decide) (by decide)
      (by decide) (by decide) (by decide)

/-- C10: for a GET request whose first path segment is `user-agent`: when the
header map has the key `user-agent` with value `v`, the response is the 200 status
line followed by what `writeContent` writes for the content type `text/plain` and
the payload `v`, which without `gzip` in the accept-encoding value is the length of
`v` in bytes and `v` itself, also for the empty `v`; when the map has no such key,
nothing at all is written. -/
theorem dispatch_user_agent (gzip : GoString → GoString) (args : List GoString)
    (canCreate : GoString → Bool) (fs : FileSystem) (request : HTTPRequest)
    (hm : request.status.method = str "GET")
    (hseg : (Split request.status.path 0x2F)[1]? = some (str "user-agent")) :
    (∀ v, request.headers.get (str "user-agent") = some v →
      dispatch gzip args canCreate fs request =
          Outcome.ret (str "HTTP/1.1 200 OK\r\n" ++ writeContent gzip (str "text/plain") v
            ((request.headers.get (str "accept-encoding")).getD [])) fs ∧
        ((¬ ∃ a b, (request.headers.get (str "accept-encoding")).getD [] =
            a ++ str "gzip" ++ b) →
          dispatch gzip args canCreate fs request =
            Outcome.ret (str "HTTP/1.1 200 OK\r\nContent-Type: text/plain\r\nContent-Length: " ++
              decimal v.length ++ str "\r\n\r\n" ++ v) fs)) ∧
    (request.headers.get (str "user-agent") = none →
      dispatch gzip args canCreate fs request = Outcome.ret [] fs) := by
  have hroot := not_root_of_index_one _ _ (by decide) hseg
  have hne : str "user-agent" ≠ str "echo" := by decide
  refine ⟨?_, ?_⟩
  · intro v hv
    have h1 : dispatch gzip args canCreate fs request =
        Outcome.ret (str "HTTP/1.1 200 OK\r\n" ++ writeContent gzip (str "text/plain") v
          ((request.headers.get (str "accept-encoding")).getD [])) fs := by
      apply dispatch_get _ _ _ _ _ _ hm
      unfold getFunc
      simp only [if_neg hroot, hseg, if_neg hne, if_true, hv, ok_bytes]
    refine ⟨h1, ?_⟩
    intro henc
    have hc : Contains ((request.headers.get (str "accept-encoding")).getD []) (str "gzip") =
        false := by
      cases hc : Contains ((request.headers.get (str "accept-encoding")).getD [])
          (str "gzip") with
      | false => rfl
      | true => exact absurd ((Contains_iff _ _).mp hc) henc
    rw [h1, writeContent_plain _ _ _ _ hc]
    simp only [List.append_assoc]
    rfl
  · intro hv
    apply dispatch_get _ _ _ _ _ _ hm
    unfold getFunc
    simp only [if_neg hroot, hseg, if_neg hne, if_true, hv]

/-- The request `GET /user-agent` with an empty `User-Agent` value, and the same
request without the header. -/
theorem dispatch_user_agent_witness :
    dispatch id [] (fun _ => true) (fun _ => none)
        ⟨⟨str "GET", str "/user-agent", str "HTTP/1.1"⟩, [(str "user-agent", [])], []⟩ =
      Outcome.ret (str "HTTP/1.1 200 OK\r\nContent-Type: text/plain\r\nContent-Length: 0\r\n\r\n")
        (fun _ => none) ∧
    dispatch id [] (fun _ => true) (fun _ => none)
        ⟨⟨str "GET", str "/user-agent", str "HTTP/1.1"⟩, [], []⟩ =
      Outcome.ret [] (fun _ => none) :=
  ⟨(((dispatch_user_agent id [] (fun _ => true) (fun _ => none)
      ⟨⟨str "GET", str "/user-agent", str "HTTP/1.1"⟩, [(str "user-agent", [])], []⟩
      (by decide) (by decide)).1 [] (by decide)).2 (by
        intro h
        have := (Contains_iff _ _).mpr h
        revert this
        decide)).trans (congrArg (fun o => Outcome.ret o fun _ => none) (by decide)),
    (dispatch_user_agent id [] (fun _ => true) (fun _ => none)
      ⟨⟨str "GET", str "/user-agent", str "HTTP/1.1"⟩, [], []⟩
      (by decide) (by decide)).2 (by decide)⟩

/-! ## The chunks and the fuel of the model -/

theorem decode_width_le_four (s : GoString) : (DecodeRuneInString s).2 ≤ 4 := by
  cases s with
  | nil => simp [DecodeRuneInString]
  | cons s0 rest =>
    simp only [DecodeRuneInString]
    repeat' split
    all_goals simp

set_option maxHeartbeats 2000000 in
theorem decode_take_of_width (s0 : Nat) (rest : GoString) (w : Nat)
    (h : (DecodeRuneInString (s0 :: rest)).2 = w) :
    DecodeRuneInString ((s0 :: rest).take w) = DecodeRuneInString (s0 :: rest) := by
  have h1 := decode_width_pos s0 rest
  have h4 := decode_width_le_four (s0 :: rest)
  have hw : w = 1 ∨ w = 2 ∨ w = 3 ∨ w = 4 := by omega
  rcases hw with rfl | rfl | rfl | rfl
  · revert h
    simp only [List.take_succ_cons, List.take_zero, DecodeRuneInString]
    repeat' split
    all_goals simp_all
  · rcases rest with _ | ⟨a, rest⟩
    · simp
    · revert h
      simp only [List.take_succ_cons, List.take_zero, DecodeRuneInString]
      repeat' split
      all_goals simp_all
      all_goals omega
  · rcases rest with _ | ⟨a, _ | ⟨b, rest⟩⟩
    · simp
    · simp
    · revert h
      simp only [List.take_succ_cons, List.take_zero, DecodeRuneInString]
      repeat' split
      all_goals simp_all
      all_goals omega
  · rcases rest with _ | ⟨a, _ | ⟨b, _ | ⟨c, rest⟩⟩⟩
    · simp
    · simp
    · simp
    · revert h
      simp only [List.take_succ_cons, List.take_zero, DecodeRuneInString]
      repeat' split
      all_goals simp_all
      all_goals first | omega | (have hsz := leadInfo_size _ _ _ _ ‹_›; omega)

theorem decode_take (s0 : Nat) (rest : GoString) :
    DecodeRuneInString ((s0 :: rest).take (DecodeRuneInString (s0 :: rest)).2) =
      DecodeRuneInString (s0 :: rest) :=
  decode_take_of_width s0 rest _ rfl

theorem cutLine_line_ne_nil (d : Nat) (s line rest : GoString)
    (h : cutLine d s = some (line, rest)) : line ≠ [] := by
  cases s with
  | nil => simp [cutLine] at h
  | cons x s =>
    rw [cutLine] at h
    split_ifs at h
    · simp only [Option.some.injEq, Prod.mk.injEq] at h
      rw [← h.1]; simp
    · cases hc : cutLine d s with
      | none => simp [hc] at h
      | some p =>
        simp only [hc, Option.some.injEq, Prod.mk.injEq] at h
        rw [← h.1]; simp

theorem headerLoop_fuel (tbl : Nat → Nat) : ∀ (f1 f2 : Nat) (reader : Reader) (m : Headers),
    reader.remaining.length + 1 ≤ f1 → reader.remaining.length + 1 ≤ f2 →
    headerLoop tbl f1 reader m = headerLoop tbl f2 reader m := by
  intro f1
  induction f1 with
  | zero => intro f2 reader m h; omega
  | succ f1 ih =>
    intro f2 reader m h1 h2
    cases f2 with
    | zero => omega
    | succ f2 =>
      rw [headerLoop, headerLoop]
      cases hc : cutLine 0x0A reader.remaining with
      | none =>
        obtain ⟨r, hr, _⟩ := ReadString_eof reader 0x0A hc
        rw [hr]
        simp
      | some p =>
        obtain ⟨line, rest⟩ := p
        obtain ⟨r, hr, hr2⟩ := ReadString_line reader 0x0A line rest hc
        have hlen : reader.remaining.length = line.length + rest.length := by
          rw [cutLine_eq _ _ _ _ hc, List.length_append]
        have hpos : 0 < line.length := List.length_pos.mpr (cutLine_line_ne_nil _ _ _ _ hc)
        rw [hr]
        simp only [Bool.false_eq_true, if_false]
        split_ifs
        · rfl
        · split
          · exact ih f2 r _ (by rw [hr2]; omega) (by rw [hr2]; omega)
          · rfl

/-! ## The path segments -/

theorem Split_ne_nil (s : GoString) (sep : Nat) : Split s sep ≠ [] := by
  cases s with
  | nil => simp [Split]
  | cons b rest =>
    rw [Split]
    split_ifs
    · simp
    · split <;> simp

theorem Split_no_sep (s : GoString) (sep : Nat) (h : sep ∉ s) : Split s sep = [s] := by
  induction s with
  | nil => rfl
  | cons b rest ih =>
    have hb : b ≠ sep := fun e => h (by simp [e])
    have hr : sep ∉ rest := fun e => h (List.mem_cons_of_mem _ e)
    rw [Split, if_neg hb, ih hr]

theorem Split_append_sep (a b : GoString) (sep : Nat) (h : sep ∉ a) :
    Split (a ++ sep :: b) sep = a :: Split b sep := by
  induction a with
  | nil => simp [Split]
  | cons x a ih =>
    have hx : x ≠ sep := fun e => h (by simp [e])
    have ha : sep ∉ a := fun e => h (List.mem_cons_of_mem _ e)
    rw [List.cons_append, Split, if_neg hx, ih ha]

theorem Split_two_segments (s1 s2 : GoString) (h1 : 0x2F ∉ s1) (h2 : 0x2F ∉ s2) :
    Split (0x2F :: (s1 ++ 0x2F :: s2)) 0x2F = [[], s1, s2] := by
  have := Split_append_sep [] (s1 ++ 0x2F :: s2) 0x2F (by simp)
  rw [List.nil_append] at this
  rw [this, Split_append_sep s1 s2 0x2F h1, Split_no_sep s2 0x2F h2]

theorem Split_three_segments (s1 s2 r : GoString) (h1 : 0x2F ∉ s1) (h2 : 0x2F ∉ s2) :
    ∃ more, Split (0x2F :: (s1 ++ 0x2F :: (s2 ++ 0x2F :: r))) 0x2F = [] :: s1 :: s2 :: more := by
  have := Split_append_sep [] (s1 ++ 0x2F :: (s2 ++ 0x2F :: r)) 0x2F (by simp)
  rw [List.nil_append] at this
  rw [this, Split_append_sep s1 _ 0x2F h1, Split_append_sep s2 r 0x2F h2]
  exact ⟨_, rfl⟩

theorem getD_eq_of_getElem? (l1 l2 : List GoString) (h : l1[2]? = l2[2]?) :
    l1.getD 2 [] = l2.getD 2 [] ∧ (2 < l1.length ↔ 2 < l2.length) := by
  refine ⟨by rw [List.getD_eq_getElem?_getD, List.getD_eq_getElem?_getD, h], ?_⟩
  constructor
  · intro hl
    by_contra hc
    rw [List.getElem?_eq_getElem hl, List.getElem?_eq_none (by omega)] at h
    cases h
  · intro hl
    by_contra hc
    rw [List.getElem?_eq_getElem hl, List.getElem?_eq_none (by omega)] at h
    cases h

/-- The handlers look at the path only through elements 1 and 2 of its split: two
requests that differ only in their paths, neither path being the root or empty, get
the same outcome when these two elements agree. -/
theorem dispatch_congr (gzip : GoString → GoString) (args : List GoString)
    (canCreate : GoString → Bool) (fs : FileSystem) (status : Status) (headers : Headers)
    (body p1 p2 : GoString)
    (hr1 : ¬ (p1 = str "/" ∨ p1 = str "")) (hr2 : ¬ (p2 = str "/" ∨ p2 = str ""))
    (h1 : (Split p1 0x2F)[1]? = (Split p2 0x2F)[1]?)
    (h2 : (Split p1 0x2F)[2]? = (Split p2 0x2F)[2]?) :
    dispatch gzip args canCreate fs ⟨{ status with path := p1 }, headers, body⟩ =
      dispatch gzip args canCreate fs ⟨{ status with path := p2 }, headers, body⟩ := by
  obtain ⟨hd, hl⟩ := getD_eq_of_getElem? _ _ h2
  have hlen : (decide (2 < (Split p1 0x2F).length)) = decide (2 < (Split p2 0x2F).length) := by
    simp only [decide_eq_decide]; exact hl
  unfold dispatch getFunc postFunc
  simp only [if_neg hr1, if_neg hr2, h1, hd]
  simp only [hl]

/-! ## The file handlers -/

theorem created_bytes :
    writeStatusLine 201 (str "Created") ++ endHeaders = str "HTTP/1.1 201 Created\r\n\r\n" := by
  decide

theorem dispatch_post (gzip : GoString → GoString) (args : List GoString)
    (canCreate : GoString → Bool) (fs : FileSystem) (request : HTTPRequest)
    (hm : request.status.method = str "POST") :
    dispatch gzip args canCreate fs request = postFunc args canCreate fs request := by
  unfold dispatch
  rw [if_neg (by rw [hm]; decide), if_pos hm]

theorem getFunc_files (gzip : GoString → GoString) (args : List GoString) (fs : FileSystem)
    (request : HTTPRequest) (directory name : GoString)
    (hseg : (Split request.status.path 0x2F)[1]? = some (str "files"))
    (hname : (Split request.status.path 0x2F)[2]? = some name)
    (hargs : args[2]? = some directory) :
    getFunc gzip args fs request =
      match fs (directory ++ name) with
      | some content =>
        Outcome.ret (str "HTTP/1.1 200 OK\r\n" ++
          writeContent gzip (str "application/octet-stream") content
            ((request.headers.get (str "accept-encoding")).getD [])) ()
      | none => Outcome.exit (str "HTTP/1.1 404 Not Found\r\n\r\n") := by
  have hroot := not_root_of_index_one _ _ (by decide) hseg
  have h1 : str "files" ≠ str "echo" := by decide
  have h2 : str "files" ≠ str "user-agent" := by decide
  have hlen : 2 < (Split request.status.path 0x2F).length := by
    by_contra hc
    rw [List.getElem?_eq_none (by omega)] at hname
    cases hname
  have hget : (Split request.status.path 0x2F).getD 2 [] = name := by
    rw [List.getD_eq_getElem?_getD, hname]; rfl
  unfold getFunc
  simp only [if_neg hroot, hseg, if_neg h1, if_neg h2, if_true, if_pos hlen, hget, extractFile,
    hargs, Outcome.bind, List.nil_append]
  cases fs (directory ++ name) with
  | none => simp only [notFound_bytes]
  | some content => simp only [ok_bytes]

theorem postFunc_files (args : List GoString) (canCreate : GoString → Bool) (fs : FileSystem)
    (request : HTTPRequest) (directory name : GoString)
    (hseg : (Split request.status.path 0x2F)[1]? = some (str "files"))
    (hname : (Split request.status.path 0x2F)[2]? = some name)
    (hargs : args[2]? = some directory) :
    postFunc args canCreate fs request =
      if canCreate (directory ++ name) then
        Outcome.ret (str "HTTP/1.1 201 Created\r\n\r\n")
          (fun p => if p = directory ++ name then some request.body else fs p)
      else Outcome.exit (str "HTTP/1.1 400 Bad Request\r\n\r\n") := by
  have hroot := not_root_of_index_one _ _ (by decide) hseg
  have hlen : 2 < (Split request.status.path 0x2F).length := by
    by_contra hc
    rw [List.getElem?_eq_none (by omega)] at hname
    cases hname
  have hget : (Split request.status.path 0x2F).getD 2 [] = name := by
    rw [List.getD_eq_getElem?_getD, hname]; rfl
  unfold postFunc
  simp only [if_neg hroot, hseg, if_true, if_pos hlen, hget, writeFile, hargs]
  split_ifs
  · simp only [Outcome.bind, List.nil_append, created_bytes]
  · simp only [Outcome.bind, List.nil_append, badRequest_bytes]

/-- C11, the failing input: for the GET request with the path `/files`, which has
the first segment `files` and no second segment, `getFunc` returns without writing a
single byte, whatever the headers, the arguments and the files are: neither the 200
response nor the 404 response is written. -/
theorem dispatch_get_files_no_segment (gzip : GoString → GoString) (args : List GoString)
    (canCreate : GoString → Bool) (fs : FileSystem) (protocol : GoString) (headers : Headers)
    (body : GoString) :
    (Split (str "/files") 0x2F)[1]? = some (str "files") ∧
      (Split (str "/files") 0x2F)[2]? = none ∧
      dispatch gzip args canCreate fs ⟨⟨str "GET", str "/files", protocol⟩, headers, body⟩ =
        Outcome.ret [] fs := by
  refine ⟨by decide, by decide, ?_⟩
  apply dispatch_get _ _ _ _ _ _ rfl
  rfl

/-- C12, the failing input: for the POST request with the path `/files`, which has
the first segment `files` and no second segment, `postFunc` returns without writing a
single byte and without touching the files: none of the 201, 400 and 404 responses
is written. -/
theorem dispatch_post_files_no_segment (gzip : GoString → GoString) (args : List GoString)
    (canCreate : GoString → Bool) (fs : FileSystem) (protocol : GoString) (headers : Headers)
    (body : GoString) :
    (Split (str "/files") 0x2F)[1]? = some (str "files") ∧
      (Split (str "/files") 0x2F)[2]? = none ∧
      dispatch gzip args canCreate fs ⟨⟨str "POST", str "/files", protocol⟩, headers, body⟩ =
        Outcome.ret [] fs := by
  refine ⟨by decide, by decide, ?_⟩
  rw [dispatch_post _ _ _ _ _ rfl]
  rfl

/-- The other cases of C12: a POST request whose first segment is `files` and which
has a second segment writes the body to `<directory><second segment>` and answers
201, or answers 400 and exits when the file cannot be created; a POST request with
any other first segment, or with the root path, answers 404 and leaves the files
as they are. -/
theorem dispatch_post_cases (gzip : GoString → GoString) (args : List GoString)
    (canCreate : GoString → Bool) (fs : FileSystem) (request : HTTPRequest)
    (hm : request.status.method = str "POST") :
    (∀ directory name, (Split request.status.path 0x2F)[1]? = some (str "files") →
      (Split request.status.path 0x2F)[2]? = some name → args[2]? = some directory →
      dispatch gzip args canCreate fs request =
        if canCreate (directory ++ name) then
          Outcome.ret (str "HTTP/1.1 201 Created\r\n\r\n")
            (fun p => if p = directory ++ name then some request.body else fs p)
        else Outcome.exit (str "HTTP/1.1 400 Bad Request\r\n\r\n")) ∧
    (∀ seg, (Split request.status.path 0x2F)[1]? = some seg → seg ≠ str "files" →
      dispatch gzip args canCreate fs request =
        Outcome.ret (str "HTTP/1.1 404 Not Found\r\n\r\n") fs) ∧
    (request.status.path = str "/" →
      dispatch gzip args canCreate fs request =
        Outcome.ret (str "HTTP/1.1 404 Not Found\r\n\r\n") fs) := by
  rw [dispatch_post _ _ _ _ _ hm]
  refine ⟨?_, ?_, ?_⟩
  · intro directory name h1 h2 h3
    exact postFunc_files args canCreate fs request directory name h1 h2 h3
  · intro seg hseg hne
    unfold postFunc
    by_cases hroot : request.status.path = str "/" ∨ request.status.path = str ""
    · simp only [if_pos hroot, notFound_bytes]
    · simp only [if_neg hroot, hseg, if_neg hne, notFound_bytes]
  · intro hpath
    unfold postFunc
    simp only [hpath, true_or, if_true, notFound_bytes]

/-- The other cases of C11: a GET request whose first segment is `files` and which
has a second segment answers 200 with the content of `<directory><second segment>`
as `application/octet-stream` when the file can be read, and writes exactly the 404
response (and exits) when it cannot. -/
theorem dispatch_get_files_cases (gzip : GoString → GoString) (args : List GoString)
    (canCreate : GoString → Bool) (fs : FileSystem) (request : HTTPRequest)
    (directory name : GoString) (hm : request.status.method = str "GET")
    (hseg : (Split request.status.path 0x2F)[1]? = some (str "files"))
    (hname : (Split request.status.path 0x2F)[2]? = some name)
    (hargs : args[2]? = some directory) :
    (∀ content, fs (directory ++ name) = some content →
      dispatch gzip args canCreate fs request =
        Outcome.ret (str "HTTP/1.1 200 OK\r\n" ++
          writeContent gzip (str "application/octet-stream") content
            ((request.headers.get (str "accept-encoding")).getD [])) fs) ∧
    (fs (directory ++ name) = none →
      dispatch gzip args canCreate fs request =
        Outcome.exit (str "HTTP/1.1 404 Not Found\r\n\r\n")) := by
  have hg := getFunc_files gzip args fs request directory name hseg hname hargs
  refine ⟨?_, ?_⟩
  · intro content hc
    rw [hc] at hg
    exact dispatch_get _ _ _ _ _ _ hm hg
  · intro hc
    rw [hc] at hg
    unfold dispatch
    rw [if_pos hm, hg]
    rfl

theorem files_path_split (n : GoString) (hn : 0x2F ∉ n) :
    Split (str "/files/" ++ n) 0x2F = [[], str "files", n] := by
  have h : str "/files/" ++ n = 0x2F :: (str "files" ++ 0x2F :: n) := rfl
  rw [h]
  exact Split_two_segments (str "files") n (by decide) hn

/-- C13: with a storage directory on which every write succeeds, and a file name
`n` of one path segment: POST `/files/n` with the body `b1` answers 201; a GET
`/files/n` without gzip then answers 200 with `application/octet-stream`, the length
of `b1` in bytes and `b1` itself; a further POST with the body `b2` answers 201 and
the next GET returns `b2`; the files under other names stay as they were. -/
theorem files_round_trip (gzip : GoString → GoString) (args : List GoString)
    (canCreate : GoString → Bool) (fs : FileSystem) (directory n b1 b2 : GoString)
    (protocol : GoString) (postHeaders getHeaders : Headers) (getBody : GoString)
    (hargs : args[2]? = some directory) (hn : 0x2F ∉ n)
    (hcan : ∀ p, canCreate p = true)
    (henc : ¬ ∃ a b, (getHeaders.get (str "accept-encoding")).getD [] = a ++ str "gzip" ++ b) :
    ∃ fs1 fs2 : FileSystem,
      dispatch gzip args canCreate fs
          ⟨⟨str "POST", str "/files/" ++ n, protocol⟩, postHeaders, b1⟩ =
        Outcome.ret (str "HTTP/1.1 201 Created\r\n\r\n") fs1 ∧
      dispatch gzip args canCreate fs1
          ⟨⟨str "GET", str "/files/" ++ n, protocol⟩, getHeaders, getBody⟩ =
        Outcome.ret (str "HTTP/1.1 200 OK\r\nContent-Type: application/octet-stream\r\n" ++
          str "Content-Length: " ++ decimal b1.length ++ str "\r\n\r\n" ++ b1) fs1 ∧
      dispatch gzip args canCreate fs1
          ⟨⟨str "POST", str "/files/" ++ n, protocol⟩, postHeaders, b2⟩ =
        Outcome.ret (str "HTTP/1.1 201 Created\r\n\r\n") fs2 ∧
      dispatch gzip args canCreate fs2
          ⟨⟨str "GET", str "/files/" ++ n, protocol⟩, getHeaders, getBody⟩ =
        Outcome.ret (str "HTTP/1.1 200 OK\r\nContent-Type: application/octet-stream\r\n" ++
          str "Content-Length: " ++ decimal b2.length ++ str "\r\n\r\n" ++ b2) fs2 ∧
      ∀ m, m ≠ n → fs1 (directory ++ m) = fs (directory ++ m) ∧
        fs2 (directory ++ m) = fs (directory ++ m) := by
  have hsplit := files_path_split n hn
  have hseg : (Split (str "/files/" ++ n) 0x2F)[1]? = some (str "files") := by rw [hsplit]; rfl
  have hname : (Split (str "/files/" ++ n) 0x2F)[2]? = some n := by rw [hsplit]; rfl
  have hc : Contains ((getHeaders.get (str "accept-encoding")).getD []) (str "gzip") = false := by
    cases hc : Contains ((getHeaders.get (str "accept-encoding")).getD []) (str "gzip") with
    | false => rfl
    | true => exact absurd ((Contains_iff _ _).mp hc) henc
  have post : ∀ (f : FileSystem) (b : GoString),
      dispatch gzip args canCreate f ⟨⟨str "POST", str "/files/" ++ n, protocol⟩, postHeaders, b⟩ =
        Outcome.ret (str "HTTP/1.1 201 Created\r\n\r\n")
          (fun p => if p = directory ++ n then some b else f p) := by
    intro f b
    rw [dispatch_post _ _ _ _ _ rfl,
      postFunc_files args canCreate f _ directory n hseg hname hargs, if_pos (hcan _)]
  have get : ∀ (f : FileSystem) (b : GoString), f (directory ++ n) = some b →
      dispatch gzip args canCreate f
          ⟨⟨str "GET", str "/files/" ++ n, protocol⟩, getHeaders, getBody⟩ =
        Outcome.ret (str "HTTP/1.1 200 OK\r\nContent-Type: application/octet-stream\r\n" ++
          str "Content-Length: " ++ decimal b.length ++ str "\r\n\r\n" ++ b) f := by
    intro f b hf
    apply dispatch_get _ _ _ _ _ _ rfl
    rw [getFunc_files gzip args f _ directory n hseg hname hargs, hf]
    simp only [writeContent_plain _ _ _ _ hc, List.append_assoc]
    rfl
  refine ⟨_, _, post fs b1, get _ b1 (by simp), post _ b2, get _ b2 (by simp), ?_⟩
  intro m hm
  have hne : directory ++ m ≠ directory ++ n := fun e => hm (List.append_cancel_left e)
  simp [hne]

/-- The file `test.txt` in the directory `/tmp/`, first written `abc`, then `de`. -/
theorem files_round_trip_witness :
    ∃ fs1 fs2 : FileSystem,
      dispatch id [str "server", str "--directory", str "/tmp/"] (fun _ => true) (fun _ => none)
          ⟨⟨str "POST", str "/files/" ++ str "test.txt", str "HTTP/1.1"⟩, [], str "abc"⟩ =
        Outcome.ret (str "HTTP/1.1 201 Created\r\n\r\n") fs1 ∧
      dispatch id [str "server", str "--directory", str "/tmp/"] (fun _ => true) fs1
          ⟨⟨str "GET", str "/files/" ++ str "test.txt", str "HTTP/1.1"⟩, [], []⟩ =
        Outcome.ret (str "HTTP/1.1 200 OK\r\nContent-Type: application/octet-stream\r\n" ++
          str "Content-Length: " ++ decimal (str "abc").length ++ str "\r\n\r\n" ++ str "abc") fs1 ∧
      dispatch id [str "server", str "--directory", str "/tmp/"] (fun _ => true) fs1
          ⟨⟨str "POST", str "/files/" ++ str "test.txt", str "HTTP/1.1"⟩, [], str "de"⟩ =
        Outcome.ret (str "HTTP/1.1 201 Created\r\n\r\n") fs2 ∧
      dispatch id [str "server", str "--directory", str "/tmp/"] (fun _ => true) fs2
          ⟨⟨str "GET", str "/files/" ++ str "test.txt", str "HTTP/1.1"⟩, [], []⟩ =
        Outcome.ret (str "HTTP/1.1 200 OK\r\nContent-Type: application/octet-stream\r\n" ++
          str "Content-Length: " ++ decimal (str "de").length ++ str "\r\n\r\n" ++ str "de") fs2 ∧
      ∀ m, m ≠ str "test.txt" → fs1 (str "/tmp/" ++ m) = (fun _ => none) (str "/tmp/" ++ m) ∧
        fs2 (str "/tmp/" ++ m) = (fun _ => none) (str "/tmp/" ++ m) :=
  files_round_trip id [str "server", str "--directory", str "/tmp/"] (fun _ => true)
    (fun _ => none) (str "/tmp/") (str "test.txt") (str "abc") (str "de") (str "HTTP/1.1") [] [] []
    (by decide) (by decide) (fun _ => rfl) (by
      intro h
      have := (Contains_iff _ _).mpr h
      revert this
      decide)

/-! ## Requests the server does not answer -/

/-- C14, the failing input: the stream `GET /user-agent HTTP/1.1`, CRLF, CRLF is
accepted by the parser (three fields, no headers), and `handleConnection` returns
without writing a single byte: there is no status line at all. -/
theorem handleConnection_no_status_line (tbl : Nat → Nat) (mem : Nat)
    (gzip : GoString → GoString) (args : List GoString)
    (canCreate : GoString → Bool) (fs : FileSystem) :
    createRequestObject tbl mem [str "GET /user-agent HTTP/1.1\r\n\r\n"] =
        Outcome.ret [] (⟨⟨str "GET", str "/user-agent", str "HTTP/1.1"⟩, [], []⟩, ⟨[], []⟩) ∧
      handleConnection tbl mem gzip args canCreate fs [str "GET /user-agent HTTP/1.1\r\n\r\n"] =
        Outcome.ret [] fs :=
  ⟨rfl, rfl⟩

theorem SplitN_no_colon (line : GoString) (h : cut 0x3A line = none) :
    SplitN line 0x3A 2 = [line] := by
  simp [SplitN, h]

/-- A line that is not CRLF and has no colon stops the header loop with the panic of
`splitHeader[1]`, whatever was read before and whatever follows. -/
theorem headerLoop_no_colon (tbl : Nat → Nat) (fuel : Nat) (reader : Reader) (m : Headers)
    (line rest : GoString) (hline : cutLine 0x0A reader.remaining = some (line, rest))
    (hcrlf : line ≠ str "\r\n") (hcolon : cut 0x3A line = none) :
    headerLoop tbl (fuel + 1) reader m = none := by
  obtain ⟨r, hr, _⟩ := ReadString_line reader 0x0A line rest hline
  rw [headerLoop, hr]
  simp [hcrlf, SplitN_no_colon line hcolon]

/-- C15, the failing input: the request line `GET / HTTP/1.1` followed by the line
`garbage`, which has no colon, and a blank line: the header loop does not go on to
the next line, `splitHeader[1]` is out of range and `createRequestObject` panics,
and so does `handleConnection`, with nothing written. -/
theorem createRequestObject_header_without_colon (tbl : Nat → Nat) (mem : Nat)
    (gzip : GoString → GoString) (args : List GoString) (canCreate : GoString → Bool)
    (fs : FileSystem) :
    SplitN (str "garbage\r\n") 0x3A 2 = [str "garbage\r\n"] ∧
      createRequestObject tbl mem [str "GET / HTTP/1.1\r\ngarbage\r\n\r\n"] = Outcome.panic [] ∧
      handleConnection tbl mem gzip args canCreate fs [str "GET / HTTP/1.1\r\ngarbage\r\n\r\n"] =
        Outcome.panic [] :=
  ⟨by decide, rfl, rfl⟩

/-! ## Requests without a body -/

theorem Atoi_error_value (val : GoString) (h : (Atoi val).2 = true) :
    (Atoi val).1 = 0 ∨ (Atoi val).1 = 2 ^ 63 - 1 ∨ (Atoi val).1 = -2 ^ 63 := by
  cases val with
  | nil => left; rfl
  | cons c cs =>
    simp only [Atoi] at h ⊢
    by_cases hd : (if c = 0x2B ∨ c = 0x2D then cs else c :: cs) = []
    · simp only [hd, if_true]
      left; trivial
    · simp only [hd, if_false] at h ⊢
      cases hs : scanUint (if c = 0x2B ∨ c = 0x2D then cs else c :: cs) 0 with
      | none => simp
      | some un =>
        simp only [hs] at h ⊢
        split_ifs at h ⊢ <;> simp_all

/-- Without the key `content-length`, or with a value for which `Atoi` returns zero
or a negative number (as it does for every syntax error), the last part of
`createRequestObject` returns the request with an empty body, writes nothing and
leaves the reader as it is. -/
theorem readBody_empty (mem : Nat) (statusPayload : Status) (headerPayload : Headers)
    (reader : Reader)
    (h : headerPayload.get (str "content-length") = none ∨
      ∃ val, headerPayload.get (str "content-length") = some val ∧ (Atoi val).1 ≤ 0) :
    readBody mem statusPayload headerPayload reader =
      Outcome.ret [] (⟨statusPayload, headerPayload, []⟩, reader) := by
  unfold readBody
  rcases h with h | ⟨val, h, hle⟩
  · rw [h]
  · rw [h]
    simp only
    rw [if_neg (by omega)]

/-- C17, the failing input: the value `99999999999999999999` of `Content-Length`
does not parse (`Atoi` returns an error, which the code only prints) but `Atoi`
also returns the largest `int64`, which is positive: the code goes on to allocate
that many bytes and `createRequestObject` panics instead of returning a request with
an empty body. -/
theorem createRequestObject_content_length_out_of_range (tbl : Nat → Nat) (mem : Nat) :
    Atoi (str "99999999999999999999") = (2 ^ 63 - 1, true) ∧
      createRequestObject tbl mem
          [str "GET / HTTP/1.1\r\nContent-Length: 99999999999999999999\r\n\r\n"] =
        Outcome.panic [] :=
  ⟨by decide, rfl⟩

/-- The values `abc`, the empty value, `12x`, `0` and `-5` of `Content-Length`, and
a request without the header: the body is empty and the bytes after the blank line
stay unread. -/
theorem createRequestObject_no_body_examples (tbl : Nat → Nat) (mem : Nat) :
    (∀ v ∈ [str "abc", str "", str "12x", str "0", str "-5"], (Atoi v).1 ≤ 0) ∧
      createRequestObject tbl mem [str "GET / HTTP/1.1\r\nContent-Length: abc\r\n\r\nxyz"] =
        Outcome.ret [] (⟨⟨str "GET", str "/", str "HTTP/1.1"⟩,
          [(str "content-length", str "abc")], []⟩, ⟨str "xyz", []⟩) ∧
      createRequestObject tbl mem [str "GET / HTTP/1.1\r\nContent-Length:\r\n\r\nxyz"] =
        Outcome.ret [] (⟨⟨str "GET", str "/", str "HTTP/1.1"⟩,
          [(str "content-length", str "")], []⟩, ⟨str "xyz", []⟩) ∧
      createRequestObject tbl mem [str "GET / HTTP/1.1\r\nContent-Length: -5\r\n\r\nxyz"] =
        Outcome.ret [] (⟨⟨str "GET", str "/", str "HTTP/1.1"⟩,
          [(str "content-length", str "-5")], []⟩, ⟨str "xyz", []⟩) ∧
      createRequestObject tbl mem [str "GET / HTTP/1.1\r\nHost: a\r\n\r\nxyz"] =
        Outcome.ret [] (⟨⟨str "GET", str "/", str "HTTP/1.1"⟩,
          [(str "host", str "a")], []⟩, ⟨str "xyz", []⟩) :=
  ⟨by decide, rfl, rfl, rfl, rfl⟩

/-! ## A body shorter than the announced length -/

theorem ReadString_buffered (b : Reader) (d : Nat) (line after : GoString)
    (h : cutLine d b.buf = some (line, after)) :
    b.ReadString d = (line, false, { b with buf := after }) := by
  unfold Reader.ReadString Reader.fuel
  rw [readStringLoop, h]
  simp

theorem ReadString_first_segment (seg : GoString) (d : Nat) (line after : GoString)
    (hlen : seg.length ≤ defaultBufSize) (h : cutLine d seg = some (line, after)) :
    (NewReader [seg]).ReadString d = (line, false, { buf := after, conn := [] }) := by
  cases seg with
  | nil => simp [cutLine] at h
  | cons x seg =>
    have hnot : ¬ defaultBufSize ≤ ([] : GoString).length := by decide
    have htake : (x :: seg).take defaultBufSize = x :: seg := List.take_of_length_le hlen
    unfold Reader.ReadString Reader.fuel NewReader
    rw [readStringLoop]
    simp only [cutLine, List.length_nil, if_neg hnot, Nat.sub_zero, connRead, htake,
      if_pos hlen, List.nil_append]
    show readStringLoop d (2 * ([x :: seg].flatten.length + [x :: seg].length) + 2)
      { buf := x :: seg, conn := [] } [] = _
    rw [readStringLoop, h]
    simp

theorem connRead_of_flatten_nil (k : Nat) (conn : Conn) (h : conn.flatten = []) :
    connRead k conn = none := by
  induction conn with
  | nil => rfl
  | cons seg conn ih =>
    rw [List.flatten_cons, List.append_eq_nil] at h
    obtain ⟨h1, h2⟩ := h
    subst h1
    rw [connRead]
    exact ih h2

theorem Read_eof (b : Reader) (n : Nat) (h : b.remaining = []) : b.Read n = none := by
  unfold Reader.remaining at h
  rw [List.append_eq_nil] at h
  obtain ⟨h1, h2⟩ := h
  unfold Reader.Read
  rw [h1]
  simp only [connRead_of_flatten_nil _ _ h2]
  split_ifs <;> rfl

theorem readBody_eof (mem : Nat) (statusPayload : Status) (headerPayload : Headers)
    (reader : Reader) (val : GoString) (n : Nat)
    (hval : headerPayload.get (str "content-length") = some val)
    (hn : (Atoi val).1 = (n : Int)) (hpos : 0 < n) (hmax : (n : Int) ≤ maxAlloc)
    (hmem : n ≤ mem) (hrem : reader.remaining = []) :
    readBody mem statusPayload headerPayload reader = Outcome.exit [] := by
  unfold readBody
  rw [hval]
  simp only [hn]
  rw [if_pos (by exact_mod_cast hpos), if_neg (by omega), Int.toNat_ofNat, Read_eof reader n hrem]

/-- With a positive `content-length` of `n` that is more than the run time can
allocate, the process stops in `make([]byte, n)`, before any byte of the body is
read. -/
theorem readBody_alloc_fail (mem : Nat) (statusPayload : Status) (headerPayload : Headers)
    (reader : Reader) (val : GoString) (n : Nat)
    (hval : headerPayload.get (str "content-length") = some val)
    (hn : (Atoi val).1 = (n : Int)) (hpos : 0 < n) (hbig : maxAlloc < (n : Int) ∨ mem < n) :
    readBody mem statusPayload headerPayload reader = Outcome.panic [] := by
  unfold readBody
  rw [hval]
  simp only [hn]
  rw [if_pos (by exact_mod_cast hpos), if_pos (by omega)]

theorem headerLoop_buffered (tbl : Nat → Nat) (rest : GoString) :
    ∀ (lines : List GoString) (fuel : Nat) (reader : Reader) (m : Headers),
      (∀ l ∈ lines, IsHeaderLine l) → reader.buf = lines.flatten ++ (str "\r\n" ++ rest) →
      reader.buf.length + 1 ≤ fuel →
      ∃ hs, headerLoop tbl fuel reader m = some (hs, { reader with buf := rest }) ∧
        ∀ k, hs.get k = ((headersOf tbl lines k).or (m.get k)) := by
  intro lines
  induction lines with
  | nil =>
    intro fuel reader m _ hbuf hfuel
    cases fuel with
    | zero => omega
    | succ fuel =>
      simp only [List.flatten_nil, List.nil_append] at hbuf
      have hc : cutLine 0x0A reader.buf = some (str "\r\n", rest) := by
        rw [hbuf]
        exact cutLine_append_some 0x0A (str "\r\n") rest (str "\r\n") [] (by decide)
      rw [headerLoop, ReadString_buffered reader 0x0A _ _ hc]
      exact ⟨m, by simp, by simp [headersOf]⟩
  | cons l lines ih =>
    intro fuel reader m hl hbuf hfuel
    obtain ⟨hline, hcolon⟩ := hl l (List.mem_cons_self _ _)
    have hne : l ≠ [] := by
      intro h; rw [h] at hline; simp [cutLine] at hline
    cases fuel with
    | zero => omega
    | succ fuel =>
      have hc : cutLine 0x0A reader.buf = some (l, lines.flatten ++ (str "\r\n" ++ rest)) := by
        rw [hbuf, List.flatten_cons, List.append_assoc]
        simpa using cutLine_append_some 0x0A l (lines.flatten ++ (str "\r\n" ++ rest)) l [] hline
      rw [headerLoop, ReadString_buffered reader 0x0A _ _ hc]
      have hcrlf : l ≠ str "\r\n" := by
        intro h; rw [h] at hcolon; exact hcolon (by decide)
      cases hcut : cut 0x3A l with
      | none => exact absurd hcut hcolon
      | some p =>
        obtain ⟨before, after⟩ := p
        simp only [Bool.false_eq_true, if_false, hcrlf, SplitN_two l before after hcut]
        have hlen : (lines.flatten ++ (str "\r\n" ++ rest)).length + 1 ≤ fuel := by
          have h1 : reader.buf.length = l.length + (lines.flatten ++ (str "\r\n" ++ rest)).length := by
            rw [hbuf, List.flatten_cons, List.append_assoc, List.length_append]
          have h2 : 0 < l.length := List.length_pos.mpr hne
          omega
        obtain ⟨hs, h1, h3⟩ := ih fuel
          { reader with buf := lines.flatten ++ (str "\r\n" ++ rest) }
          (m.set (ToLower tbl (TrimSpace before)) (TrimSpace after))
          (fun x hx => hl x (List.mem_cons_of_mem _ hx)) rfl hlen
        refine ⟨hs, by simpa using h1, ?_⟩
        intro k
        rw [h3 k, Headers.get_set]
        simp only [headersOf, List.reverse_cons, List.find?_append]
        cases hfind : List.find? (fun line => decide (keyOf tbl line = k)) lines.reverse with
        | some x => simp
        | none =>
          simp only [Option.map_none', Option.none_or, Option.none_or, List.find?_cons,
            List.find?_nil, keyOf, nameOf, valueOf, hcut, Option.map_some', Option.getD_some]
          by_cases hk : k = ToLower tbl (TrimSpace before)
          · simp [hk, hcut]
          · have : ¬ ToLower tbl (TrimSpace before) = k := fun h => hk h.symm
            simp [hk, this]

/-- C16, the counterexample: the request says `Content-Length: 5` and the stream
ends right after the blank line (k = 0): the read of the body fails, and
`createRequestObject` ends the process with `os.Exit(1)` instead of returning a
request with an empty body. -/
theorem createRequestObject_body_missing :
    createRequestObject id (2 ^ 20)
        [str "POST /files/a HTTP/1.1\r\nContent-Length: 5\r\n\r\n"] = Outcome.exit [] ∧
      ¬ ∃ out req rd,
        createRequestObject id (2 ^ 20)
            [str "POST /files/a HTTP/1.1\r\nContent-Length: 5\r\n\r\n"] =
          Outcome.ret out (req, rd) := by
  have h : createRequestObject id (2 ^ 20)
      [str "POST /files/a HTTP/1.1\r\nContent-Length: 5\r\n\r\n"] = Outcome.exit [] := by
    decide
  refine ⟨h, ?_⟩
  rintro ⟨out, req, rd, h2⟩
  rw [h] at h2
  cases h2

/-- C16 as amended: the header `content-length` has the positive value `n` and the
stream holds only `k < n` bytes after the blank line.  The slice of `n` bytes is
allocated first.  When the run time can allocate it (`n` is at most `maxAlloc` and
at most the memory `mem` it has): for `k ≥ 1` and a request that arrives in one
segment fitting the buffer of the reader, `createRequestObject` returns a request
whose body is exactly those `k` bytes, and writes nothing; for `k = 0`, however the
request arrives, it writes nothing and ends the process with `os.Exit(1)`.  When the
run time cannot allocate `n` bytes, the process stops in the allocation, whatever
`k` is and however the request arrives. -/
theorem createRequestObject_short_body (tbl : Nat → Nat) (mem : Nat) (requestLine : GoString)
    (lines : List GoString) (body val : GoString) (n : Nat) (statusPayload : Status)
    (hreq : cutLine 0x0A requestLine = some (requestLine, []))
    (hstatus : createStatusObject requestLine = Outcome.ret [] statusPayload)
    (hlines : ∀ l ∈ lines, IsHeaderLine l)
    (hval : headersOf tbl lines (str "content-length") = some val)
    (hn : (Atoi val).1 = (n : Int)) (hk : body.length < n) :
    ((n : Int) ≤ maxAlloc → n ≤ mem → body ≠ [] →
      (requestLine ++ (lines.flatten ++ (str "\r\n" ++ body))).length ≤ defaultBufSize →
      ∃ headerPayload,
        createRequestObject tbl mem [requestLine ++ (lines.flatten ++ (str "\r\n" ++ body))] =
          Outcome.ret [] (⟨statusPayload, headerPayload, body⟩, { buf := [], conn := [] }) ∧
        ∀ k, headerPayload.get k = headersOf tbl lines k) ∧
    ((n : Int) ≤ maxAlloc → n ≤ mem →
      ∀ conn : Conn, conn.flatten = requestLine ++ (lines.flatten ++ str "\r\n") →
        createRequestObject tbl mem conn = Outcome.exit []) ∧
    (maxAlloc < (n : Int) ∨ mem < n →
      ∀ conn : Conn, conn.flatten = requestLine ++ (lines.flatten ++ (str "\r\n" ++ body)) →
        createRequestObject tbl mem conn = Outcome.panic []) := by
  have hpos : 0 < n := by omega
  refine ⟨?_, ?_, ?_⟩
  · intro hmax hmem hbody hlen
    have hc := cutLine_append_some 0x0A requestLine (lines.flatten ++ (str "\r\n" ++ body))
      requestLine [] hreq
    rw [List.nil_append] at hc
    have hr := ReadString_first_segment _ 0x0A _ _ hlen hc
    obtain ⟨hs, h1, h2⟩ := headerLoop_buffered tbl body lines
      ((lines.flatten ++ (str "\r\n" ++ body)).length + 1)
      { buf := lines.flatten ++ (str "\r\n" ++ body), conn := [] } [] hlines rfl (le_refl _)
    have hget : ∀ k, hs.get k = headersOf tbl lines k := by
      intro k
      rw [h2 k]
      simp [Headers.get]
    refine ⟨hs, ?_, hget⟩
    unfold createRequestObject
    rw [hr]
    simp only [Bool.false_eq_true, if_false, hstatus, Outcome.bind, Reader.remaining,
      List.flatten_nil, List.append_nil, h1]
    rw [readBody_buffered mem statusPayload hs { buf := body, conn := [] } val n
      (by rw [hget]; exact hval) hn hpos hmax hmem hbody]
    simp only [List.nil_append]
    rw [List.take_of_length_le (by omega : body.length ≤ n),
      List.drop_of_length_le (by omega : body.length ≤ n)]
  · intro hmax hmem conn hconn
    have hline : cutLine 0x0A conn.flatten = some (requestLine, lines.flatten ++ str "\r\n") := by
      rw [hconn]
      simpa using cutLine_append_some 0x0A requestLine (lines.flatten ++ str "\r\n")
        requestLine [] hreq
    obtain ⟨r, hr, hcreate⟩ := createRequestObject_eq tbl mem conn requestLine _ statusPayload
      hline hstatus
    obtain ⟨hs, rd, h1, h2, h3⟩ := headerLoop_lines tbl (str "\r\n") [] (Or.inl (by simp))
      lines ((lines.flatten ++ str "\r\n").length + 1) r [] hlines hr (by rw [hr])
    rw [h1] at hcreate
    simp only at hcreate
    rw [hcreate]
    exact readBody_eof mem statusPayload hs rd val n
      (by rw [h3]; simpa [Headers.get] using hval) hn hpos hmax hmem h2
  · intro hbig conn hconn
    have hline : cutLine 0x0A conn.flatten =
        some (requestLine, lines.flatten ++ (str "\r\n" ++ body)) := by
      rw [hconn]
      simpa using cutLine_append_some 0x0A requestLine (lines.flatten ++ (str "\r\n" ++ body))
        requestLine [] hreq
    obtain ⟨r, hr, hcreate⟩ := createRequestObject_eq tbl mem conn requestLine _ statusPayload
      hline hstatus
    obtain ⟨hs, rd, h1, h2, h3⟩ := headerLoop_lines tbl (str "\r\n" ++ body) body (Or.inl rfl)
      lines ((lines.flatten ++ (str "\r\n" ++ body)).length + 1) r [] hlines hr (by rw [hr])
    rw [h1] at hcreate
    simp only at hcreate
    rw [hcreate]
    exact readBody_alloc_fail mem statusPayload hs rd val n
      (by rw [h3]; simpa [Headers.get] using hval) hn hpos hbig

/-- The request `POST /files/a` with `Content-Length: 5`, followed by the two bytes
`ab` in the same segment, and followed by nothing, on a machine that can allocate
the five bytes; and the first of the two on a machine that can allocate three. -/
theorem createRequestObject_short_body_witness :
    (∃ headerPayload,
      createRequestObject id (2 ^ 20)
          [str "POST /files/a HTTP/1.1\r\n" ++
            ([str "Content-Length: 5\r\n"].flatten ++ (str "\r\n" ++ str "ab"))] =
        Outcome.ret [] (⟨⟨str "POST", str "/files/a", str "HTTP/1.1"⟩, headerPayload, str "ab"⟩,
          { buf := [], conn := [] }) ∧
      ∀ k, headerPayload.get k = headersOf id [str "Content-Length: 5\r\n"] k) ∧
    (∀ conn : Conn,
      conn.flatten = str "POST /files/a HTTP/1.1\r\n" ++
        ([str "Content-Length: 5\r\n"].flatten ++ str "\r\n") →
      createRequestObject id (2 ^ 20) conn = Outcome.exit []) ∧
    (∀ conn : Conn,
      conn.flatten = str "POST /files/a HTTP/1.1\r\n" ++
        ([str "Content-Length: 5\r\n"].flatten ++ (str "\r\n" ++ str "ab")) →
      createRequestObject id 3 conn = Outcome.panic []) :=
  have h := createRequestObject_short_body id (2 ^ 20) (str "POST /files/a HTTP/1.1\r\n")
    [str "Content-Length: 5\r\n"] (str "ab") (str "5") 5
    ⟨str "POST", str "/files/a", str "HTTP/1.1"⟩ (by decide) (by decide)
    (by
      intro l hl
      rw [List.mem_singleton] at hl
      subst hl
      exact ⟨by decide, by decide⟩)
    (by decide) (by decide) (by decide)
  have h3 := createRequestObject_short_body id 3 (str "POST /files/a HTTP/1.1\r\n")
    [str "Content-Length: 5\r\n"] (str "ab") (str "5") 5
    ⟨str "POST", str "/files/a", str "HTTP/1.1"⟩ (by decide) (by decide)
    (by
      intro l hl
      rw [List.mem_singleton] at hl
      subst hl
      exact ⟨by decide, by decide⟩)
    (by decide) (by decide) (by decide)
  ⟨h.1 (by decide) (by decide) (by decide) (by decide), h.2.1 (by decide) (by decide),
    h3.2.2 (Or.inr (by decide))⟩

/-! ## The path and the choice of the handler -/

/-- C18: for path segments `s1` and `s2` without a slash and any suffix `r`, the
paths `/s1/s2/r` and `/s1/s2` get the same outcome, bytes written and files left,
whatever the method (GET and POST included), the headers, the body and the files
are: the segments after the second are looked at by no handler. -/
theorem dispatch_ignores_later_segments (gzip : GoString → GoString) (args : List GoString)
    (canCreate : GoString → Bool) (fs : FileSystem) (status : Status) (headers : Headers)
    (body s1 s2 r : GoString) (h1 : 0x2F ∉ s1) (h2 : 0x2F ∉ s2) :
    dispatch gzip args canCreate fs
        ⟨{ status with path := 0x2F :: (s1 ++ 0x2F :: (s2 ++ 0x2F :: r)) }, headers, body⟩ =
      dispatch gzip args canCreate fs
        ⟨{ status with path := 0x2F :: (s1 ++ 0x2F :: s2) }, headers, body⟩ := by
  obtain ⟨more, h3⟩ := Split_three_segments s1 s2 r h1 h2
  have h4 := Split_two_segments s1 s2 h1 h2
  apply dispatch_congr
  · rintro (h | h)
    · have := congrArg List.length h
      simp [str, encodeRune] at this
    · cases h
  · rintro (h | h)
    · have := congrArg List.length h
      simp [str, encodeRune] at this
    · cases h
  · rw [h3, h4]; simp
  · rw [h3, h4]; simp

/-- The paths `/files/a.txt/x/y` and `/files/a.txt` for a POST request. -/
theorem dispatch_ignores_later_segments_witness :
    dispatch id [str "server", str "--directory", str "/tmp/"] (fun _ => true) (fun _ => none)
        ⟨{ (⟨str "POST", [], str "HTTP/1.1"⟩ : Status) with
          path := 0x2F :: (str "files" ++ 0x2F :: (str "a.txt" ++ 0x2F :: str "x/y")) }, [],
          str "abc"⟩ =
      dispatch id [str "server", str "--directory", str "/tmp/"] (fun _ => true) (fun _ => none)
        ⟨{ (⟨str "POST", [], str "HTTP/1.1"⟩ : Status) with
          path := 0x2F :: (str "files" ++ 0x2F :: str "a.txt") }, [], str "abc"⟩ :=
  dispatch_ignores_later_segments id [str "server", str "--directory", str "/tmp/"]
    (fun _ => true) (fun _ => none) ⟨str "POST", [], str "HTTP/1.1"⟩ [] (str "abc")
    (str "files") (str "a.txt") (str "x/y") (by decide) (by decide)

set_option maxRecDepth 8000 in
/-- C19, the counterexample: the GET request with the path `//echo/hi` is answered
404 like an unknown path, while `/echo/hi` is answered by the echo handler. -/
theorem getFunc_double_slash :
    getFunc id [] (fun _ => none) ⟨⟨str "GET", str "//echo/hi", str "HTTP/1.1"⟩, [], []⟩ =
        Outcome.ret (str "HTTP/1.1 404 Not Found\r\n\r\n") () ∧
      getFunc id [] (fun _ => none) ⟨⟨str "GET", str "/echo/hi", str "HTTP/1.1"⟩, [], []⟩ =
        Outcome.ret
          (str "HTTP/1.1 200 OK\r\nContent-Type: text/plain\r\nContent-Length: 2\r\n\r\nhi") () :=
  ⟨by decide, by decide⟩

/-- C19 as amended: the handler is chosen by element 1 of the split of the path on
the slash, the text between the first and the second slash, empty or not.  Two
requests that differ only in their paths, neither the root nor empty, get the same
outcome when elements 1 and 2 of their splits agree; and a path that begins with
two slashes has an empty element 1, so that GET and POST answer it with 404 and
leave the files as they are. -/
theorem dispatch_by_element_one (gzip : GoString → GoString) (args : List GoString)
    (canCreate : GoString → Bool) (fs : FileSystem) (status : Status) (headers : Headers)
    (body : GoString) :
    (∀ p1 p2 : GoString, ¬ (p1 = str "/" ∨ p1 = str "") → ¬ (p2 = str "/" ∨ p2 = str "") →
      (Split p1 0x2F)[1]? = (Split p2 0x2F)[1]? → (Split p1 0x2F)[2]? = (Split p2 0x2F)[2]? →
      dispatch gzip args canCreate fs ⟨{ status with path := p1 }, headers, body⟩ =
        dispatch gzip args canCreate fs ⟨{ status with path := p2 }, headers, body⟩) ∧
    (∀ r : GoString, status.method = str "GET" ∨ status.method = str "POST" →
      (Split (0x2F :: 0x2F :: r) 0x2F)[1]? = some [] ∧
        dispatch gzip args canCreate fs
            ⟨{ status with path := 0x2F :: 0x2F :: r }, headers, body⟩ =
          Outcome.ret (str "HTTP/1.1 404 Not Found\r\n\r\n") fs) := by
  refine ⟨fun p1 p2 => dispatch_congr gzip args canCreate fs status headers body p1 p2, ?_⟩
  intro r hm
  have hsplit : (Split (0x2F :: 0x2F :: r) 0x2F)[1]? = some [] := by
    simp [Split]
  refine ⟨hsplit, ?_⟩
  have hroot : ¬ ((0x2F :: 0x2F :: r : GoString) = str "/" ∨ (0x2F :: 0x2F :: r : GoString) = str "") := by
    rintro (h | h)
    · have := congrArg List.length h
      simp [str, encodeRune] at this
    · cases h
  have e1 : ([] : GoString) ≠ str "echo" := by decide
  have e2 : ([] : GoString) ≠ str "user-agent" := by decide
  have e3 : ([] : GoString) ≠ str "files" := by decide
  rcases hm with hm | hm
  · apply dispatch_get _ _ _ _ _ _ hm
    unfold getFunc
    simp only [if_neg hroot, hsplit, if_neg e1, if_neg e2, if_neg e3, notFound_bytes]
  · rw [dispatch_post _ _ _ _ _ hm]
    unfold postFunc
    simp only [if_neg hroot, hsplit, if_neg e3, notFound_bytes]

theorem Split_length_of_mem (s : GoString) (sep : Nat) (h : sep ∈ s) :
    2 ≤ (Split s sep).length := by
  induction s with
  | nil => simp at h
  | cons b rest ih =>
    rw [Split]
    split_ifs with hb
    · have := Split_ne_nil rest sep
      have hl : 0 < (Split rest sep).length := List.length_pos.mpr this
      simp only [List.length_cons]
      omega
    · have hr : sep ∈ rest := by
        rcases List.mem_cons.mp h with h | h
        · exact absurd h.symm hb
        · exact h
      have := ih hr
      split
      · rename_i hs; rw [hs] at this; simp at this
      · rename_i piece pieces hs
        rw [hs] at this
        simpa using this

theorem getFunc_no_panic (gzip : GoString → GoString) (args : List GoString) (fs : FileSystem)
    (request : HTTPRequest) (directory seg : GoString) (hargs : args[2]? = some directory)
    (hseg : (Split request.status.path 0x2F)[1]? = some seg) :
    ∀ out, getFunc gzip args fs request ≠ Outcome.panic out := by
  intro out
  unfold getFunc
  simp only [hseg, extractFile, hargs, Outcome.bind]
  split_ifs
  all_goals first
    | exact fun h => Outcome.noConfusion h
    | (split <;> exact fun h => Outcome.noConfusion h)
    | (cases fs (directory ++ (Split request.status.path 0x2F).getD 2 []) <;>
        exact fun h => Outcome.noConfusion h)

theorem postFunc_no_panic (args : List GoString) (canCreate : GoString → Bool) (fs : FileSystem)
    (request : HTTPRequest) (directory seg : GoString) (hargs : args[2]? = some directory)
    (hseg : (Split request.status.path 0x2F)[1]? = some seg) :
    ∀ out, postFunc args canCreate fs request ≠ Outcome.panic out := by
  intro out
  unfold postFunc
  simp only [hseg, writeFile, hargs, Outcome.bind]
  split_ifs
  all_goals exact fun h => Outcome.noConfusion h

theorem bind_ret_no_panic {α β : Type} (x : Outcome α) (b : β)
    (h : ∀ out, x ≠ Outcome.panic out) : ∀ out, (x.bind fun _ => Outcome.ret [] b) ≠ Outcome.panic out := by
  intro out
  cases x with
  | ret o a => simp [Outcome.bind]
  | exit o => simp [Outcome.bind]
  | panic o => exact absurd rfl (h o)

/-- C20: for a GET or POST request (the program having been started with its
directory argument), `getFunc` and `postFunc` run without an index out of range
exactly when the path is empty, is the root, or has a slash in it.  A path with a
slash splits into at least two elements, so that element 1 exists; a path that is
not empty and has no slash splits into one element, the access to element 1 is out
of range and the call panics with nothing written. -/
theorem dispatch_index_in_range_iff (gzip : GoString → GoString) (args : List GoString)
    (canCreate : GoString → Bool) (fs : FileSystem) (request : HTTPRequest)
    (directory : GoString)
    (hm : request.status.method = str "GET" ∨ request.status.method = str "POST")
    (hargs : args[2]? = some directory) :
    ((∀ out, dispatch gzip args canCreate fs request ≠ Outcome.panic out) ↔
      (request.status.path = str "" ∨ request.status.path = str "/" ∨
        0x2F ∈ request.status.path)) ∧
    (0x2F ∈ request.status.path → 2 ≤ (Split request.status.path 0x2F).length) ∧
    (request.status.path ≠ str "" → 0x2F ∉ request.status.path →
      (Split request.status.path 0x2F).length = 1 ∧
        dispatch gzip args canCreate fs request = Outcome.panic []) := by
  have hpanic : request.status.path ≠ str "" → 0x2F ∉ request.status.path →
      (Split request.status.path 0x2F).length = 1 ∧
        dispatch gzip args canCreate fs request = Outcome.panic [] := by
    intro hne hno
    have hsplit := Split_no_sep request.status.path 0x2F hno
    have hroot : ¬ (request.status.path = str "/" ∨ request.status.path = str "") := by
      rintro (h | h)
      · rw [h] at hno; exact hno (by decide)
      · exact hne h
    refine ⟨by rw [hsplit]; rfl, ?_⟩
    rcases hm with hm | hm
    · unfold dispatch
      rw [if_pos hm]
      unfold getFunc
      simp only [if_neg hroot, hsplit]
      rfl
    · rw [dispatch_post _ _ _ _ _ hm]
      unfold postFunc
      simp only [if_neg hroot, hsplit]
      rfl
  refine ⟨⟨?_, ?_⟩, Split_length_of_mem _ _, hpanic⟩
  · intro h
    by_contra hc
    simp only [not_or] at hc
    exact h [] (hpanic hc.1 hc.2.2).2
  · intro hc
    by_cases hroot : request.status.path = str "/" ∨ request.status.path = str ""
    · intro out
      rcases hm with hm | hm
      · unfold dispatch
        rw [if_pos hm]
        apply bind_ret_no_panic
        intro o
        unfold getFunc
        simp only [if_pos hroot]
        exact fun h => Outcome.noConfusion h
      · rw [dispatch_post _ _ _ _ _ hm]
        unfold postFunc
        simp only [if_pos hroot]
        exact fun h => Outcome.noConfusion h
    · have hmem : 0x2F ∈ request.status.path := by
        rcases hc with h | h | h
        · exact absurd (Or.inr h) hroot
        · exact absurd (Or.inl h) hroot
        · exact h
      have hlen := Split_length_of_mem _ _ hmem
      obtain ⟨seg, hseg⟩ : ∃ seg, (Split request.status.path 0x2F)[1]? = some seg :=
        ⟨_, List.getElem?_eq_getElem (by omega)⟩
      rcases hm with hm | hm
      · unfold dispatch
        rw [if_pos hm]
        exact bind_ret_no_panic _ _ (getFunc_no_panic gzip args fs request directory seg hargs hseg)
      · rw [dispatch_post _ _ _ _ _ hm]
        exact postFunc_no_panic args canCreate fs request directory seg hargs hseg

/-- The GET request with the path `foo`, as parsed from the request line
`GET foo HTTP/1.1`. -/
theorem dispatch_index_in_range_iff_witness :
    ((∀ out, dispatch id [str "server", str "--directory", str "/tmp/"] (fun _ => true)
        (fun _ => none) ⟨⟨str "GET", str "foo", str "HTTP/1.1"⟩, [], []⟩ ≠ Outcome.panic out) ↔
      (str "foo" = str "" ∨ str "foo" = str "/" ∨ 0x2F ∈ str "foo")) ∧
    (0x2F ∈ str "foo" → 2 ≤ (Split (str "foo") 0x2F).length) ∧
    (str "foo" ≠ str "" → 0x2F ∉ str "foo" →
      (Split (str "foo") 0x2F).length = 1 ∧
        dispatch id [str "server", str "--directory", str "/tmp/"] (fun _ => true)
          (fun _ => none) ⟨⟨str "GET", str "foo", str "HTTP/1.1"⟩, [], []⟩ = Outcome.panic []) :=
  dispatch_index_in_range_iff id [str "server", str "--directory", str "/tmp/"] (fun _ => true)
    (fun _ => none) ⟨⟨str "GET", str "foo", str "HTTP/1.1"⟩, [], []⟩ (str "/tmp/")
    (Or.inl (by decide)) (by decide)

/-- The stream `GET foo HTTP/1.1`, CRLF, CRLF: the parser accepts the request line
and the dispatch panics; with the path `/foo` the answer is 404. -/
theorem handleConnection_path_without_slash (tbl : Nat → Nat) (mem : Nat)
    (gzip : GoString → GoString) (args : List GoString)
    (canCreate : GoString → Bool) (fs : FileSystem) :
    handleConnection tbl mem gzip args canCreate fs [str "GET foo HTTP/1.1\r\n\r\n"] =
        Outcome.panic [] ∧
      handleConnection tbl mem gzip args canCreate fs [str "POST foo HTTP/1.1\r\n\r\n"] =
        Outcome.panic [] ∧
      handleConnection tbl mem gzip args canCreate fs [str "GET /foo HTTP/1.1\r\n\r\n"] =
        Outcome.ret (str "HTTP/1.1 404 Not Found\r\n\r\n") fs :=
  ⟨rfl, rfl, rfl⟩

/-! ## The status line of what is written -/

theorem statusLed_writeStatusLine (code : Nat) (text rest : GoString)
    (h : code ∈ [200, 201, 400, 404, 405]) : StatusLed (writeStatusLine code text ++ rest) := by
  refine ⟨code, h, text, rest, ?_⟩
  simp only [writeStatusLine, List.append_assoc]
  rfl

theorem statusLed_literal (code : Nat) (text : GoString) (out : GoString)
    (h : code ∈ [200, 201, 400, 404, 405])
    (ho : out = writeStatusLine code text ++ endHeaders) : StatusLed out := by
  rw [ho]
  exact statusLed_writeStatusLine code text endHeaders h

theorem readBody_out (mem : Nat) (statusPayload : Status) (headerPayload : Headers)
    (reader : Reader) :
    (readBody mem statusPayload headerPayload reader).out = [] := by
  unfold readBody
  split
  · simp only
    split_ifs
    · rfl
    · split <;> rfl
    · rfl
  · rfl

theorem bind_ret_nil {α β : Type} (a : α) (f : α → Outcome β) :
    (Outcome.ret [] a).bind f = f a := by
  generalize hy : f a = y
  unfold Outcome.bind
  simp only [hy]
  cases y <;> simp

theorem createRequestObject_out (tbl : Nat → Nat) (mem : Nat) (conn : Conn) :
    (createRequestObject tbl mem conn).out = [] ∨
      createRequestObject tbl mem conn = Outcome.exit (str "HTTP/1.1 400 Bad Request\r\n\r\n") := by
  unfold createRequestObject
  rcases (NewReader conn).ReadString 0x0A with ⟨line, err, reader⟩
  simp only
  split_ifs
  · right; rw [badRequest_bytes]
  · unfold createStatusObject
    simp only
    split_ifs
    · right; rw [badRequest_bytes]; rfl
    · split
      · left
        rw [bind_ret_nil]
        cases headerLoop tbl (reader.remaining.length + 1) reader [] with
        | none => rfl
        | some p => exact readBody_out _ _ _ _
      · left; rfl

theorem getFunc_out (gzip : GoString → GoString) (args : List GoString) (fs : FileSystem)
    (request : HTTPRequest) :
    (getFunc gzip args fs request).out = [] ∨ StatusLed (getFunc gzip args fs request).out := by
  unfold getFunc
  simp only
  by_cases hroot : request.status.path = str "/" ∨ request.status.path = str ""
  · rw [if_pos hroot]
    right; exact statusLed_writeStatusLine 200 (str "OK") _ (by decide)
  · rw [if_neg hroot]
    cases (Split request.status.path 0x2F)[1]? with
    | none => left; rfl
    | some firstParam =>
      simp only
      by_cases h1 : firstParam = str "echo"
      · rw [if_pos h1]
        right; exact statusLed_writeStatusLine 200 (str "OK") _ (by decide)
      · rw [if_neg h1]
        by_cases h2 : firstParam = str "user-agent"
        · rw [if_pos h2]
          cases request.headers.get firstParam with
          | none => left; rfl
          | some val => right; exact statusLed_writeStatusLine 200 (str "OK") _ (by decide)
        · rw [if_neg h2]
          by_cases h3 : firstParam = str "files"
          · rw [if_pos h3]
            by_cases hl : 2 < (Split request.status.path 0x2F).length
            · rw [if_pos hl]
              unfold extractFile
              cases args[2]? with
              | none => left; rfl
              | some directory =>
                simp only
                rw [bind_ret_nil]
                cases fs (directory ++ (Split request.status.path 0x2F).getD 2 []) with
                | none => right; exact statusLed_writeStatusLine 404 (str "Not Found") _ (by decide)
                | some c => right; exact statusLed_writeStatusLine 200 (str "OK") _ (by decide)
            · rw [if_neg hl]; left; rfl
          · rw [if_neg h3]
            right; exact statusLed_writeStatusLine 404 (str "Not Found") _ (by decide)

theorem postFunc_out (args : List GoString) (canCreate : GoString → Bool) (fs : FileSystem)
    (request : HTTPRequest) :
    (postFunc args canCreate fs request).out = [] ∨
      StatusLed (postFunc args canCreate fs request).out := by
  unfold postFunc
  by_cases hroot : request.status.path = str "/" ∨ request.status.path = str ""
  · rw [if_pos hroot]
    right; exact statusLed_writeStatusLine 404 (str "Not Found") _ (by decide)
  · rw [if_neg hroot]
    simp only
    cases (Split request.status.path 0x2F)[1]? with
    | none => left; rfl
    | some firstParam =>
      simp only
      by_cases h3 : firstParam = str "files"
      · rw [if_pos h3]
        by_cases hl : 2 < (Split request.status.path 0x2F).length
        · rw [if_pos hl]
          unfold writeFile
          cases args[2]? with
          | none => left; rfl
          | some directory =>
            simp only
            by_cases hc : canCreate (directory ++ (Split request.status.path 0x2F).getD 2 []) = true
            · rw [if_pos hc, bind_ret_nil]
              right; exact statusLed_writeStatusLine 201 (str "Created") _ (by decide)
            · rw [if_neg hc, bind_ret_nil]
              right; exact statusLed_writeStatusLine 400 (str "Bad Request") _ (by decide)
        · rw [if_neg hl]; left; rfl
      · rw [if_neg h3]
        right; exact statusLed_writeStatusLine 404 (str "Not Found") _ (by decide)

theorem dispatch_out (gzip : GoString → GoString) (args : List GoString)
    (canCreate : GoString → Bool) (fs : FileSystem) (request : HTTPRequest) :
    (dispatch gzip args canCreate fs request).out = [] ∨
      StatusLed (dispatch gzip args canCreate fs request).out := by
  unfold dispatch
  split_ifs
  · have h := getFunc_out gzip args fs request
    cases hg : getFunc gzip args fs request with
    | ret o a => rw [hg] at h; simpa [Outcome.bind, Outcome.out] using h
    | exit o => rw [hg] at h; simpa [Outcome.bind, Outcome.out] using h
    | panic o => rw [hg] at h; simpa [Outcome.bind, Outcome.out] using h
  · exact postFunc_out args canCreate fs request
  · right; exact statusLed_writeStatusLine 405 (str "Method Not Allowed") _ (by decide)

/-- Whatever the connection delivers, the bytes `handleConnection` writes are either
none at all or begin with a status line made of the constant `HTTP/1.1`, one of the
codes 200, 201, 400, 404, 405, a reason and CRLF; the protocol of the request line is
never copied into it. -/
theorem handleConnection_out (tbl : Nat → Nat) (mem : Nat)
    (gzip : GoString → GoString) (args : List GoString)
    (canCreate : GoString → Bool) (fs : FileSystem) (conn : Conn) :
    (handleConnection tbl mem gzip args canCreate fs conn).out = [] ∨
      StatusLed (handleConnection tbl mem gzip args canCreate fs conn).out := by
  unfold handleConnection
  rcases createRequestObject_out tbl mem conn with h | h
  · cases hc : createRequestObject tbl mem conn with
    | ret o a =>
      rw [hc] at h
      have ho : o = [] := h
      subst ho
      rw [bind_ret_nil]
      exact dispatch_out gzip args canCreate fs a.1
    | exit o => rw [hc] at h; left; exact h
    | panic o => rw [hc] at h; left; exact h
  · rw [h]
    right
    exact statusLed_literal 400 (str "Bad Request") _ (by decide) badRequest_bytes.symm

end HttpServer
